import Mathlib

/-!
Verification development for the EPUB-combiner core (`combineEpubs` in
`src/epubCombiner.js`).  The JavaScript function takes a list of EPUB
archives, extracts chapters / images / styles / fonts from each, rewrites
same-book asset references inside chapter text, and assembles a single
output archive.

Shallow-embedding conventions:
* A ZIP archive is a finite association list from entry paths to entry data
  (`Zip`).  `JSZip.file(path)` returning `null` is modelled by a `none`
  lookup.
* XML parsing (`xml2js`) is an external library; an entry's data records
  what that parser would return: `EData.containerDoc` / `EData.opfDoc` hold
  the parsed shape the code navigates, while `EData.raw` is text that does
  not parse as the expected document (chapters, css, binary payloads are
  also `raw`, read back verbatim).  Binary buffers are modelled as strings
  of bytes.
* The JavaScript code defines no error classes: failures are raw runtime
  exceptions (`TypeError` from dereferencing `null`/`undefined`, parser
  errors).  The error channel is therefore modelled as the exception's
  message string.  The exact free text of library messages varies; the
  constants below are stable stand-ins for the distinct throw sites.
* `uuidv4()` is an injected unique-identifier source, passed as the `ident`
  argument.
* `String.replace(new RegExp(escapedHref, 'g'), rep)` escapes every regex
  metacharacter in the pattern, so the pattern matches literally, globally
  (leftmost, non-overlapping).  The string replacement `rep`, however, is
  processed by ECMA-262 `GetSubstitution`: `$$` inserts `$`, `$&` the
  matched text, `$` + backquote the part of the subject before the match,
  `$` + quote the part after it; every other `$`-sequence is literal
  because the escaped pattern has no capture groups.  This is modelled by
  `getSubst` inside `replaceAllStr`.
  `String.replace('OEBPS/', '')` with a plain-string pattern replaces only
  the first occurrence, modelled by `replaceFirstStr`; both call sites of
  this form pass the empty replacement, on which `GetSubstitution` is
  vacuous, so `replaceFirstStr` splices the replacement literally.
-/

/-- Decimal digit character for `d ≤ 9` (JavaScript number-to-string). -/
def digitChar (d : Nat) : Char :=
  match d with
  | 0 => '0' | 1 => '1' | 2 => '2' | 3 => '3' | 4 => '4'
  | 5 => '5' | 6 => '6' | 7 => '7' | 8 => '8' | 9 => '9'
  | _ => '*'

/-- Fuel-driven decimal rendering of a natural number (digits, most
significant first).  Fuel `n + 1` always suffices. -/
def natDecimalAux : Nat → Nat → List Char
  | 0, _ => []
  | f + 1, n =>
    if n < 10 then [digitChar n]
    else natDecimalAux f (n / 10) ++ [digitChar (n % 10)]

/-- Decimal rendering of a natural number, as JavaScript string
interpolation of a number produces it. -/
def natDecimal (n : Nat) : List Char := natDecimalAux (n + 1) n

/-- Decimal rendering as a `String`. -/
def natStr (n : Nat) : String := String.mk (natDecimal n)

/-- `pat` is a leading segment of `text` (character-exact). -/
def leadsWith : List Char → List Char → Bool
  | [], _ => true
  | _ :: _, [] => false
  | a :: as, b :: bs => if a = b then leadsWith as bs else false

/-- `pat` occurs somewhere in `text` as a contiguous segment. -/
def hasSub (pat : List Char) : List Char → Bool
  | [] => leadsWith pat []
  | c :: rest => leadsWith pat (c :: rest) || hasSub pat rest

/-- The backquote character (code 96). -/
def backquoteChar : Char := Char.ofNat 96

/-- The single-quote character (code 39). -/
def squoteChar : Char := Char.ofNat 39

/-- ECMA-262 `GetSubstitution` for a string replacement and a regex with no
capture groups: scan the replacement once; `$$` yields `$`, `$&` the
matched text, `$` + backquote the part of the subject before the match,
`$` + quote the part after it, and any other `$`-sequence (digits, `$<`,
a trailing `$`) stays literal because the match has no captures. -/
def getSubst (matched pre post : List Char) : List Char → List Char
  | [] => []
  | c :: rest =>
    if c = '$' then
      match rest with
      | [] => ['$']
      | d :: rest' =>
        if d = '$' then '$' :: getSubst matched pre post rest'
        else if d = '&' then matched ++ getSubst matched pre post rest'
        else if d = backquoteChar then pre ++ getSubst matched pre post rest'
        else if d = squoteChar then post ++ getSubst matched pre post rest'
        else '$' :: d :: getSubst matched pre post rest'
    else c :: getSubst matched pre post rest

/-- Fuel-driven global literal replacement: scan left to right, replace each
non-overlapping occurrence of `pat` by the `GetSubstitution` expansion of
`rep` at that match (`pre` is the already-consumed prefix of the original
subject).  Fuel `text.length` suffices when `pat` is non-empty. -/
def replaceAllAux (pat rep : List Char) : Nat → List Char → List Char → List Char
  | 0, _, text => text
  | f + 1, pre, text =>
    if pat ≠ [] ∧ leadsWith pat text then
      getSubst pat pre (text.drop pat.length) rep
        ++ replaceAllAux pat rep f (pre ++ pat) (text.drop pat.length)
    else
      match text with
      | [] => []
      | c :: rest => c :: replaceAllAux pat rep f (pre ++ [c]) rest

/-- The empty regex matches at every position, including the end:
interleave the (position-dependent) substitution everywhere. -/
def replaceEmptyAux (rep : List Char) : List Char → List Char → List Char
  | pre, [] => getSubst [] pre [] rep
  | pre, c :: rest =>
    getSubst [] pre (c :: rest) rep ++ c :: replaceEmptyAux rep (pre ++ [c]) rest

/-- Global literal replacement on character lists, the semantics of
JavaScript `text.replace(new RegExp(escape(pat), 'g'), rep)` with a string
replacement (so `rep` undergoes `GetSubstitution` at each match). -/
def replaceAllL (pat rep text : List Char) : List Char :=
  if pat = [] then replaceEmptyAux rep [] text
  else replaceAllAux pat rep text.length [] text

/-- Global literal replacement on strings. -/
def replaceAllStr (pat rep s : String) : String :=
  String.mk (replaceAllL pat.data rep.data s.data)

/-- First-occurrence-only replacement, the semantics of JavaScript
`text.replace(pat, rep)` with a plain-string pattern.  The only such calls
in the source pass `rep = ''`, on which `GetSubstitution` is the identity,
so the replacement is spliced literally here. -/
def replaceFirstAux (pat rep : List Char) : List Char → List Char
  | [] => []
  | c :: rest =>
    if leadsWith pat (c :: rest) then rep ++ (c :: rest).drop pat.length
    else c :: replaceFirstAux pat rep rest

/-- First-occurrence replacement on character lists.  JavaScript replaces an
empty string pattern at position 0. -/
def replaceFirstL (pat rep text : List Char) : List Char :=
  if pat = [] then rep ++ text else replaceFirstAux pat rep text

/-- First-occurrence replacement on strings. -/
def replaceFirstStr (pat rep s : String) : String :=
  String.mk (replaceFirstL pat.data rep.data s.data)

/-- `s.startsWith p` (used for `mediaType.startsWith('image/')`). -/
def strStartsWith (s p : String) : Bool := leadsWith p.data s.data

/-- `pat` occurs in `s` (used to observe chapter content). -/
def strHasSub (pat s : String) : Bool := hasSub pat.data s.data

/-- The part of `href` after its last `/` — JavaScript
`href.substring(href.lastIndexOf('/') + 1)`. -/
def basenameStr (href : String) : String :=
  String.mk ((href.data.splitOn '/').getLastD [])

/-- The part of the package-document path up to and including the last `/`
(empty when there is no `/`) — JavaScript
`path.substring(0, path.lastIndexOf('/') + 1)`. -/
def baseDirOf (p : String) : String :=
  String.mk (p.data.take (p.data.length - (basenameStr p).data.length))

/-! ## Input data model -/

/-- A package-document `<item>` as the code reads it: `item.$.id`,
`item.$.href`, `item.$['media-type']`.  A missing `media-type` attribute is
modelled as `""`; every test the code performs (`startsWith('image/')`,
`=== 'text/css'`, `fontTypes.includes(...)`, `=== 'application/xhtml+xml'`)
is false for both `undefined` and `""`. -/
structure ManifestItem where
  id : String
  href : String
  mediaType : String
deriving DecidableEq, Repr

/-- The parsed shape of a package document that the code navigates:
optional Dublin-Core fields, and the manifest item list / spine idref list
(`none` models an element with no children, where the code's
`manifest.forEach` / `for (const itemref of spine)` throws). -/
structure OpfData where
  title : Option String
  author : Option String
  language : Option String
  manifest : Option (List ManifestItem)
  spine : Option (List String)
deriving DecidableEq, Repr

/-- What an archive entry holds.  `containerDoc` / `opfDoc` record the
result the XML parser produces for that entry; `raw` is either plain text
(chapter XHTML, CSS, binary payload bytes) or text on which parsing the
expected document fails. -/
inductive EData where
  /-- Plain entry content, read back verbatim; parsing it as a structural
  document fails. -/
  | raw (s : String)
  /-- A parsed `META-INF/container.xml`: the optional
  `rootfiles[0].rootfile[0].$['full-path']` attribute. -/
  | containerDoc (fullPath : Option String)
  /-- A parsed package document (content.opf). -/
  | opfDoc (o : OpfData)
deriving DecidableEq, Repr

/-- An input archive: entry path to entry data, first match wins. -/
abbrev Zip := List (String × EData)

/-- `zip.file(path)`: `none` when the entry is absent. -/
def zipLookup (z : Zip) (p : String) : Option EData :=
  (z.find? (fun e => e.1 == p)).map (·.2)

/-- `file.async('string')` on an entry (binary buffers are byte strings). -/
def asString : EData → String
  | EData.raw s => s
  | _ => ""

/-! Model messages for the runtime exceptions the JavaScript code can
throw.  The code defines no error classes of its own; these strings stand
for the distinct library/TypeError throw sites (their exact free text in
Node varies). -/

/-- `zip.file(p)` returned `null` and `.async(...)` was invoked on it. -/
def nullAsyncMsg : String := "TypeError: Cannot read properties of null (reading 'async')"

/-- `container.xml` did not parse as XML. -/
def containerParseMsg : String := "Error: container.xml is not well-formed XML"

/-- `container.xml` parsed, but not with the navigated shape. -/
def containerShapeMsg : String := "TypeError: Cannot read properties of undefined (reading '0')"

/-- The root-file `full-path` attribute is absent, so
`contentOpfPath.substring` dereferences `undefined`. -/
def fullPathMsg : String := "TypeError: Cannot read properties of undefined (reading 'substring')"

/-- The package document did not parse as XML. -/
def opfParseMsg : String := "Error: package document is not well-formed XML"

/-- The package document parsed, but not with the navigated shape. -/
def opfShapeMsg : String := "TypeError: Cannot read properties of undefined (reading 'metadata')"

/-- `manifest` has no items, so `manifest.forEach` dereferences
`undefined`. -/
def manifestForEachMsg : String := "TypeError: Cannot read properties of undefined (reading 'forEach')"

/-- `spine` has no itemrefs, so `for (const itemref of spine)` iterates
`undefined`. -/
def spineIterateMsg : String := "TypeError: spine is not iterable"

/-! ## Extracted records (the code's chapter/asset object literals) -/

/-- A chapter record pushed onto `allChapters`. -/
structure Chapter where
  id : String
  href : String
  content : String
  originalHref : String
  bookIndex : Nat
deriving DecidableEq, Repr

/-- An image or font record pushed onto `allImages` / `allFonts`. -/
structure Asset where
  id : String
  href : String
  content : String
  mediaType : String
  originalHref : String
  bookIndex : Nat
deriving DecidableEq, Repr

/-- A CSS record pushed onto `allStyles` (the code's style objects carry no
`mediaType` field; the manifest entry later uses the literal `text/css`). -/
structure Style where
  id : String
  href : String
  content : String
  originalHref : String
  bookIndex : Nat
deriving DecidableEq, Repr

/-- A `bookMetadata` record. -/
structure BookMeta where
  title : String
  author : String
  bookIndex : Nat
deriving DecidableEq, Repr

/-- The `combinedMetadata` record. -/
structure CombinedMeta where
  title : String
  author : String
  language : String
  identifier : String
deriving DecidableEq, Repr

/-- `chapter_{i}_{itemId}` -/
def chapterIdStr (i : Nat) (itemId : String) : String :=
  "chapter_" ++ natStr i ++ "_" ++ itemId

/-- `OEBPS/Text/{chapterId}.xhtml` -/
def chapterHrefStr (i : Nat) (itemId : String) : String :=
  "OEBPS/Text/" ++ chapterIdStr i itemId ++ ".xhtml"

/-- `img_{i}_{itemId}` -/
def imgIdStr (i : Nat) (itemId : String) : String :=
  "img_" ++ natStr i ++ "_" ++ itemId

/-- `OEBPS/Images/{imgId}_{imageName}` -/
def imgHrefStr (i : Nat) (itemId name : String) : String :=
  "OEBPS/Images/" ++ imgIdStr i itemId ++ "_" ++ name

/-- `style_{i}_{itemId}` -/
def styleIdStr (i : Nat) (itemId : String) : String :=
  "style_" ++ natStr i ++ "_" ++ itemId

/-- `OEBPS/Styles/{styleId}_{cssName}` -/
def styleHrefStr (i : Nat) (itemId name : String) : String :=
  "OEBPS/Styles/" ++ styleIdStr i itemId ++ "_" ++ name

/-- `font_{i}_{itemId}` -/
def fontIdStr (i : Nat) (itemId : String) : String :=
  "font_" ++ natStr i ++ "_" ++ itemId

/-- `OEBPS/Fonts/{fontId}_{fontName}` -/
def fontHrefStr (i : Nat) (itemId name : String) : String :=
  "OEBPS/Fonts/" ++ fontIdStr i itemId ++ "_" ++ name

/-- The `manifestMap` lookup: `manifestMap[item.$.id] = item.$` is built by
assignment in manifest order, so the last item with a given id wins. -/
def manifestLookup (m : List ManifestItem) (idref : String) : Option ManifestItem :=
  m.reverse.find? (fun it => it.id == idref)

/-- One spine itemref's chapter, if it resolves: the idref must be in the
manifest, the item's media type must be `application/xhtml+xml`, and the
file must exist in the archive (lines 75–97 of the source). -/
def resolveChapter (z : Zip) (i : Nat) (baseDir : String) (m : List ManifestItem)
    (idref : String) : Option Chapter :=
  match manifestLookup m idref with
  | none => none
  | some it =>
    if it.mediaType = "application/xhtml+xml" then
      match zipLookup z (baseDir ++ it.href) with
      | none => none
      | some e =>
        some { id := chapterIdStr i idref, href := chapterHrefStr i idref,
               content := asString e, originalHref := it.href, bookIndex := i }
    else none

/-- One manifest item's image asset, if its media type starts with `image/`
and the file exists (lines 99–125; the declared `imageExtensions` array is
unused by the code). -/
def resolveImage (z : Zip) (i : Nat) (baseDir : String) (it : ManifestItem) : Option Asset :=
  if strStartsWith it.mediaType "image/" then
    match zipLookup z (baseDir ++ it.href) with
    | none => none
    | some e =>
      some { id := imgIdStr i it.id, href := imgHrefStr i it.id (basenameStr it.href),
             content := asString e, mediaType := it.mediaType,
             originalHref := it.href, bookIndex := i }
  else none

/-- One manifest item's CSS asset, if its media type is `text/css` and the
file exists (lines 127–148). -/
def resolveStyle (z : Zip) (i : Nat) (baseDir : String) (it : ManifestItem) : Option Style :=
  if it.mediaType = "text/css" then
    match zipLookup z (baseDir ++ it.href) with
    | none => none
    | some e =>
      some { id := styleIdStr i it.id, href := styleHrefStr i it.id (basenameStr it.href),
             content := asString e, originalHref := it.href, bookIndex := i }
  else none

/-- The recognized font media types (line 151). -/
def fontTypes : List String :=
  ["application/font-woff", "application/vnd.ms-opentype", "application/x-font-ttf",
   "font/ttf", "font/otf", "font/woff", "font/woff2"]

/-- One manifest item's font asset, if its media type is a recognized font
type and the file exists (lines 150–173). -/
def resolveFont (z : Zip) (i : Nat) (baseDir : String) (it : ManifestItem) : Option Asset :=
  if it.mediaType ∈ fontTypes then
    match zipLookup z (baseDir ++ it.href) with
    | none => none
    | some e =>
      some { id := fontIdStr i it.id, href := fontHrefStr i it.id (basenameStr it.href),
             content := asString e, mediaType := it.mediaType,
             originalHref := it.href, bookIndex := i }
  else none

/-- Everything extracted from one source book. -/
structure Batch where
  chapters : List Chapter
  images : List Asset
  styles : List Style
  fonts : List Asset
  meta : BookMeta
  titleOpt : Option String
  authorOpt : Option String
  langOpt : Option String
deriving DecidableEq, Repr

/-- The batch built once the package document, its manifest and its spine
are in hand — the pure tail of the loop body: chapters in spine order,
then images / styles / fonts by independent manifest scans, plus this
book's metadata record. -/
def buildBatch (z : Zip) (i : Nat) (baseDir : String) (o : OpfData)
    (m : List ManifestItem) (spine : List String) : Batch :=
  { chapters := spine.filterMap (resolveChapter z i baseDir m),
    images := m.filterMap (resolveImage z i baseDir),
    styles := m.filterMap (resolveStyle z i baseDir),
    fonts := m.filterMap (resolveFont z i baseDir),
    meta := { title := o.title.getD ("Book " ++ natStr (i + 1)),
              author := o.author.getD "Unknown Author",
              bookIndex := i },
    titleOpt := o.title, authorOpt := o.author, langOpt := o.language }

/-- Process one input book (loop body, lines 30–174): locate and read
`META-INF/container.xml`, derive the package-document path and base
directory, read the package document, extract metadata, then collect
chapters in spine order and images / styles / fonts by manifest scans. -/
def processBook (z : Zip) (i : Nat) : Except String Batch := do
  let centry ← (match zipLookup z "META-INF/container.xml" with
    | none => Except.error nullAsyncMsg
    | some e => pure e)
  let pOpt ← (match centry with
    | EData.containerDoc p => pure p
    | EData.raw _ => Except.error containerParseMsg
    | EData.opfDoc _ => Except.error containerShapeMsg)
  let contentOpfPath ← (match pOpt with
    | none => Except.error fullPathMsg
    | some p => pure p)
  let baseDir := baseDirOf contentOpfPath
  let oentry ← (match zipLookup z contentOpfPath with
    | none => Except.error nullAsyncMsg
    | some e => pure e)
  let o ← (match oentry with
    | EData.opfDoc o => pure o
    | EData.raw _ => Except.error opfParseMsg
    | EData.containerDoc _ => Except.error containerShapeMsg)
  let m ← (match o.manifest with
    | none => Except.error manifestForEachMsg
    | some m => pure m)
  let spine ← (match o.spine with
    | none => Except.error spineIterateMsg
    | some s => pure s)
  pure (buildBatch z i baseDir o m spine)

/-- The accumulated working set (`allChapters`, `allImages`, `allStyles`,
`allFonts`, `bookMetadata`, `combinedMetadata`). -/
structure ExtractState where
  allChapters : List Chapter
  allImages : List Asset
  allStyles : List Style
  allFonts : List Asset
  bookMetadata : List BookMeta
  combined : CombinedMeta
deriving DecidableEq, Repr

/-- Initial working set (lines 17–27); `ident` models `uuidv4()`. -/
def initState (ident : String) : ExtractState :=
  { allChapters := [], allImages := [], allStyles := [], allFonts := [],
    bookMetadata := [],
    combined := { title := "Combined EPUB", author := "Multiple Authors",
                  language := "en", identifier := ident } }

/-- Fold one book's batch into the working set; the combined metadata is
overwritten from the first book only (lines 51–62, 88–94, 115–122,
139–145, 163–170). -/
def applyBatch (st : ExtractState) (i : Nat) (b : Batch) : ExtractState :=
  { allChapters := st.allChapters ++ b.chapters,
    allImages := st.allImages ++ b.images,
    allStyles := st.allStyles ++ b.styles,
    allFonts := st.allFonts ++ b.fonts,
    bookMetadata := st.bookMetadata ++ [b.meta],
    combined :=
      if i = 0 then
        { title := b.titleOpt.getD st.combined.title,
          author := b.authorOpt.getD st.combined.author,
          language := b.langOpt.getD st.combined.language,
          identifier := st.combined.identifier }
      else st.combined }

/-- The per-book loop (`for (let i = 0; ...)`) starting at index `i`. -/
def extractGo : Nat → List Zip → ExtractState → Except String ExtractState
  | _, [], st => Except.ok st
  | i, z :: rest, st => do
    let b ← processBook z i
    extractGo (i + 1) rest (applyBatch st i b)

/-- Extraction over all input books. -/
def extractBooks (zips : List Zip) (ident : String) : Except String ExtractState :=
  extractGo 0 zips (initState ident)

/-! ## Reference Rewriter (lines 176–200) -/

/-- The replacement path for an asset href:
`../` + the href with its first `OEBPS/` removed. -/
def relPathOf (href : String) : String :=
  "../" ++ replaceFirstStr "OEBPS/" "" href

/-- Rewrite one chapter's text: for each image, then each style, of the
same `bookIndex`, globally replace the asset's `originalHref` with its new
relative path — as a JavaScript string replacement, so `$`-sequences in
that path are expanded by `GetSubstitution`.  Fonts are not processed by
this pass. -/
def rewriteContent (bookIndex : Nat) (content : String)
    (imgs : List Asset) (sts : List Style) : String :=
  let c1 := imgs.foldl
    (fun acc img =>
      if img.bookIndex = bookIndex then
        replaceAllStr img.originalHref (relPathOf img.href) acc
      else acc) content
  sts.foldl
    (fun acc s =>
      if s.bookIndex = bookIndex then
        replaceAllStr s.originalHref (relPathOf s.href) acc
      else acc) c1

/-- Rewrite one chapter record. -/
def rewriteChapter (imgs : List Asset) (sts : List Style) (c : Chapter) : Chapter :=
  { c with content := rewriteContent c.bookIndex c.content imgs sts }

/-- The rewrite pass over all accumulated chapters. -/
def rewritePass (st : ExtractState) : ExtractState :=
  { st with allChapters := st.allChapters.map (rewriteChapter st.allImages st.allStyles) }

/-! ## Table of contents page (lines 216–297) -/

/-- The fixed head of `toc.xhtml` (lines 217–270; `\x7b` and `\x7d` are the
CSS braces). -/
def tocHeader : String :=
  "<?xml version=\"1.0\" encoding=\"UTF-8\"?>\n<!DOCTYPE html PUBLIC \"-//W3C//DTD XHTML 1.1//EN\" \"http://www.w3.org/TR/xhtml11/DTD/xhtml11.dtd\">\n<html xmlns=\"http://www.w3.org/1999/xhtml\">\n<head>\n  <title>Table of Contents</title>\n  <style type=\"text/css\">\n    body \x7b\n      font-family: Georgia, serif;\n      margin: 2em;\n      line-height: 1.6;\n    \x7d\n    h1 \x7b\n      text-align: center;\n      color: #333;\n      border-bottom: 2px solid #333;\n      padding-bottom: 0.5em;\n      margin-bottom: 1.5em;\n    \x7d\n    .toc-entry \x7b\n      margin: 1.5em 0;\n      padding: 1em;\n      background-color: #f9f9f9;\n      border-left: 4px solid #333;\n    \x7d\n    .toc-entry:hover \x7b\n      background-color: #f0f0f0;\n    \x7d\n    .book-title \x7b\n      font-size: 1.2em;\n      font-weight: bold;\n      margin-bottom: 0.3em;\n    \x7d\n    .book-title a \x7b\n      color: #0066cc;\n      text-decoration: none;\n    \x7d\n    .book-title a:hover \x7b\n      text-decoration: underline;\n    \x7d\n    .book-author \x7b\n      font-size: 0.9em;\n      color: #666;\n      font-style: italic;\n    \x7d\n    .book-number \x7b\n      color: #999;\n      font-size: 0.9em;\n    \x7d\n  </style>\n</head>\n<body>\n  <h1>Table of Contents</h1>\n  <div class=\"toc-list\">\n"

/-- The fixed tail of `toc.xhtml` (lines 293–295). -/
def tocFooter : String := "  </div>\n</body>\n</html>"

/-- One TOC entry (lines 284–289). -/
def tocEntryHTML (bm : BookMeta) (firstChapterHref : String) : String :=
  "    <div class=\"toc-entry\">\n      <div class=\"book-number\">Book " ++ natStr (bm.bookIndex + 1)
    ++ "</div>\n      <div class=\"book-title\"><a href=\"" ++ replaceFirstStr "OEBPS/" "" firstChapterHref
    ++ "\">" ++ bm.title ++ "</a></div>\n      <div class=\"book-author\">by " ++ bm.author
    ++ "</div>\n    </div>\n"

/-- The TOC entries: one per book that contributed at least one chapter,
linking to its first accumulated chapter (lines 272–291). -/
def tocEntries (st : ExtractState) : List String :=
  st.bookMetadata.filterMap (fun bm =>
    (st.allChapters.find? (fun c => c.bookIndex == bm.bookIndex)).map
      (fun fc => tocEntryHTML bm fc.href))

/-- The complete `toc.xhtml` text. -/
def tocHTML (st : ExtractState) : String :=
  tocHeader ++ String.join (tocEntries st) ++ tocFooter

/-! ## Package assembly and archive output (lines 202–472) -/

/-- The fixed `META-INF/container.xml` the code emits (lines 208–213). -/
def containerXMLOut : String :=
  "<?xml version=\"1.0\" encoding=\"UTF-8\"?>\n<container version=\"1.0\" xmlns=\"urn:oasis:names:tc:opendocument:xmlns:container\">\n  <rootfiles>\n    <rootfile full-path=\"OEBPS/content.opf\" media-type=\"application/oebps-package+xml\"/>\n  </rootfiles>\n</container>"

/-- A manifest `<item>` of the output package document. -/
structure OutItem where
  id : String
  href : String
  mediaType : String
deriving DecidableEq, Repr

/-- The output package document, structurally (the `opfContent` object fed
to the XML builder, lines 389–415). -/
structure PkgDoc where
  title : String
  author : String
  language : String
  identifier : String
  manifestItems : List OutItem
  spineItems : List String
deriving DecidableEq, Repr

/-- A `navPoint` of the output NCX (lines 424–435). -/
structure NavPoint where
  id : String
  playOrder : String
  label : String
  src : String
deriving DecidableEq, Repr

/-- The output NCX document, structurally (lines 437–458). -/
structure NcxDoc where
  uid : String
  docTitle : String
  navPoints : List NavPoint
deriving DecidableEq, Repr

/-- Data held by an output archive entry. -/
inductive OutData where
  | text (s : String)
  | pkg (p : PkgDoc)
  | nav (n : NcxDoc)
deriving DecidableEq, Repr

/-- ZIP entry compression.  `mimetype` is added with
`{ compression: 'STORE' }`; `generateAsync({ compression: 'DEFLATE' })`
applies deflate to every entry without a per-file override. -/
inductive Comp where
  | store
  | deflate
deriving DecidableEq, Repr

/-- An output archive entry. -/
structure OutEntry where
  path : String
  data : OutData
  comp : Comp
deriving DecidableEq, Repr

/-- Build the output archive from the (rewritten) working set (lines
202–471): mimetype, container.xml, toc.xhtml, every chapter and asset at
its new href, the package document and the NCX. -/
def assemble (st : ExtractState) : List OutEntry :=
  let tocItem : OutItem :=
    { id := "toc-page", href := "Text/toc.xhtml", mediaType := "application/xhtml+xml" }
  let chapterItems : List OutItem := st.allChapters.map (fun c =>
    { id := c.id, href := replaceFirstStr "OEBPS/" "" c.href,
      mediaType := "application/xhtml+xml" })
  let imageItems : List OutItem := st.allImages.map (fun a =>
    { id := a.id, href := replaceFirstStr "OEBPS/" "" a.href, mediaType := a.mediaType })
  let styleItems : List OutItem := st.allStyles.map (fun s =>
    { id := s.id, href := replaceFirstStr "OEBPS/" "" s.href, mediaType := "text/css" })
  let fontItems : List OutItem := st.allFonts.map (fun f =>
    { id := f.id, href := replaceFirstStr "OEBPS/" "" f.href, mediaType := f.mediaType })
  let ncxItem : OutItem :=
    { id := "ncx", href := "toc.ncx", mediaType := "application/x-dtbncx+xml" }
  let pkg : PkgDoc :=
    { title := st.combined.title, author := st.combined.author,
      language := st.combined.language, identifier := st.combined.identifier,
      manifestItems := tocItem :: (chapterItems ++ imageItems ++ styleItems ++ fontItems ++ [ncxItem]),
      spineItems := "toc-page" :: st.allChapters.map (·.id) }
  let navPoints : List NavPoint := st.allChapters.enum.map (fun p =>
    { id := "navPoint-" ++ natStr (p.1 + 1), playOrder := natStr (p.1 + 1),
      label := "Chapter " ++ natStr (p.1 + 1),
      src := replaceFirstStr "OEBPS/" "" p.2.href })
  let ncx : NcxDoc :=
    { uid := st.combined.identifier, docTitle := st.combined.title, navPoints := navPoints }
  ({ path := "mimetype", data := OutData.text "application/epub+zip", comp := Comp.store } : OutEntry)
    :: ({ path := "META-INF/container.xml", data := OutData.text containerXMLOut, comp := Comp.deflate } : OutEntry)
    :: ({ path := "OEBPS/Text/toc.xhtml", data := OutData.text (tocHTML st), comp := Comp.deflate } : OutEntry)
    :: (st.allChapters.map (fun c =>
          ({ path := c.href, data := OutData.text c.content, comp := Comp.deflate } : OutEntry))
        ++ st.allImages.map (fun a =>
          ({ path := a.href, data := OutData.text a.content, comp := Comp.deflate } : OutEntry))
        ++ st.allStyles.map (fun s =>
          ({ path := s.href, data := OutData.text s.content, comp := Comp.deflate } : OutEntry))
        ++ st.allFonts.map (fun f =>
          ({ path := f.href, data := OutData.text f.content, comp := Comp.deflate } : OutEntry))
        ++ [({ path := "OEBPS/content.opf", data := OutData.pkg pkg, comp := Comp.deflate } : OutEntry),
            ({ path := "OEBPS/toc.ncx", data := OutData.nav ncx, comp := Comp.deflate } : OutEntry)])

/-- The whole merge: extract every book, rewrite chapter references,
assemble the output archive.  `ident` is the injected `uuidv4()` value. -/
def combineEpubs (zips : List Zip) (ident : String) : Except String (List OutEntry) :=
  (extractBooks zips ident).map (fun st => assemble (rewritePass st))

/-- The package document held by one output entry, if it is the package
document's entry. -/
def pkgEntry? (e : OutEntry) : Option PkgDoc :=
  if e.path = "OEBPS/content.opf" then
    match e.data with
    | OutData.pkg p => some p
    | _ => none
  else none

/-- The package document of an output archive, read back from its entry. -/
def pkgOf (out : List OutEntry) : Option PkgDoc :=
  out.findSome? pkgEntry?

/-- The spine of an output archive. -/
def spineOf (out : List OutEntry) : Option (List String) :=
  (pkgOf out).map (·.spineItems)

deriving instance DecidableEq for Except

/-! ## Specification-side definitions

`specReplaceL` is an independent rendering of the spec's words for the
Reference Rewriter ("replace every literal, non-overlapping occurrence"):
find the leftmost match position by searching all positions, splice in the
replacement, continue after the match.  It is compared with `replaceAllL`
(the embedding of the JavaScript `String.replace` call) by theorem. -/

/-- The position of the leftmost occurrence of `pat` in `text`, if any. -/
def firstMatch (pat text : List Char) : Option Nat :=
  (List.range (text.length + 1)).find? (fun i => leadsWith pat (text.drop i))

/-- Fuel-driven leftmost-occurrence replacement; fuel `text.length`
suffices when `pat` is non-empty. -/
def specReplaceAux (pat rep : List Char) : Nat → List Char → List Char
  | 0, text => text
  | f + 1, text =>
    match firstMatch pat text with
    | none => text
    | some i => text.take i ++ rep ++ specReplaceAux pat rep f (text.drop (i + pat.length))

/-- Replace every literal, non-overlapping occurrence of `pat` by `rep`,
scanning left to right — the spec's description of one rewriter step. -/
def specReplaceL (pat rep text : List Char) : List Char :=
  specReplaceAux pat rep text.length text

/-- `specReplaceL` on strings. -/
def specReplaceStr (pat rep s : String) : String :=
  String.mk (specReplaceL pat.data rep.data s.data)

/-! ## Views of the extraction used to state claims -/

/-- The batches of all books, from index `i` on (the per-book loop with its
side effects on the accumulators stripped away). -/
def collectBatches : Nat → List Zip → Except String (List Batch)
  | _, [] => Except.ok []
  | i, z :: rest => do
    let b ← processBook z i
    let bs ← collectBatches (i + 1) rest
    pure (b :: bs)

/-- Folding a list of batches into a working set, starting at index `i`. -/
def applyBatches : Nat → ExtractState → List Batch → ExtractState
  | _, st, [] => st
  | i, st, b :: bs => applyBatches (i + 1) (applyBatch st i b) bs

/-- The fully resolved view of a book as `processBook` reaches it: the
package document, its manifest items, its spine idrefs, and the base
directory derived from the package-document path. -/
def bookView? (z : Zip) : Option (OpfData × List ManifestItem × List String × String) :=
  match zipLookup z "META-INF/container.xml" with
  | some (EData.containerDoc (some p)) =>
    (match zipLookup z p with
     | some (EData.opfDoc o) =>
       (match o.manifest, o.spine with
        | some m, some s => some (o, m, s, baseDirOf p)
        | _, _ => none)
     | _ => none)
  | _ => none

/-- A book archive laid out as container + package document + files. -/
def mkBook (opfPath : String) (o : OpfData) (files : List (String × EData)) : Zip :=
  ("META-INF/container.xml", EData.containerDoc (some opfPath))
    :: (opfPath, EData.opfDoc o) :: files

/-- The spine itemref `r` resolves to no chapter, for the two reasons the
claimed graceful degradation names: its idref is absent from the manifest,
or it resolves to an XHTML item whose file is absent from the archive. -/
def danglingRef (z : Zip) (baseDir : String) (m : List ManifestItem) (r : String) : Prop :=
  manifestLookup m r = none ∨
  ∃ it, manifestLookup m r = some it ∧ it.mediaType = "application/xhtml+xml" ∧
    zipLookup z (baseDir ++ it.href) = none

/-- All record ids of the working set: chapters, images, styles, fonts. -/
def allIds (st : ExtractState) : List String :=
  st.allChapters.map (·.id) ++ st.allImages.map (·.id)
    ++ st.allStyles.map (·.id) ++ st.allFonts.map (·.id)

/-- All record hrefs of the working set: chapters, images, styles, fonts. -/
def allHrefs (st : ExtractState) : List String :=
  st.allChapters.map (·.href) ++ st.allImages.map (·.href)
    ++ st.allStyles.map (·.href) ++ st.allFonts.map (·.href)

/-- Hygiene of one source book's package document: manifest item ids
pairwise distinct and free of underscores, spine idrefs pairwise
distinct. -/
def goodOpf (o : OpfData) : Prop :=
  (∀ m, o.manifest = some m →
    (m.map (·.id)).Nodup ∧ ∀ it ∈ m, ('_' : Char) ∉ it.id.data) ∧
  (∀ s, o.spine = some s → s.Nodup)

/-- The id/href shape of a chapter extracted from book `i`. -/
def chapterShaped (i : Nat) (c : Chapter) : Prop :=
  ∃ r, c.id = chapterIdStr i r ∧ c.href = chapterHrefStr i r

/-- The id/href shape of an image extracted from book `i`. -/
def imageShaped (i : Nat) (a : Asset) : Prop :=
  ∃ t n, a.id = imgIdStr i t ∧ a.href = imgHrefStr i t n

/-- The id/href shape of a style extracted from book `i`. -/
def styleShaped (i : Nat) (s : Style) : Prop :=
  ∃ t n, s.id = styleIdStr i t ∧ s.href = styleHrefStr i t n

/-- The id/href shape of a font extracted from book `i`. -/
def fontShaped (i : Nat) (a : Asset) : Prop :=
  ∃ t n, a.id = fontIdStr i t ∧ a.href = fontHrefStr i t n

/-- Every record of the working set carries the id/href shape of some book
index below `n`. -/
def ShapedBelow (n : Nat) (st : ExtractState) : Prop :=
  (∀ c ∈ st.allChapters, ∃ i < n, chapterShaped i c) ∧
  (∀ a ∈ st.allImages, ∃ i < n, imageShaped i a) ∧
  (∀ s ∈ st.allStyles, ∃ i < n, styleShaped i s) ∧
  (∀ a ∈ st.allFonts, ∃ i < n, fontShaped i a)

/-- Per-pool uniqueness of ids and hrefs in the working set. -/
def PoolsNodup (st : ExtractState) : Prop :=
  (st.allChapters.map (·.id)).Nodup ∧ (st.allChapters.map (·.href)).Nodup ∧
  (st.allImages.map (·.id)).Nodup ∧ (st.allImages.map (·.href)).Nodup ∧
  (st.allStyles.map (·.id)).Nodup ∧ (st.allStyles.map (·.href)).Nodup ∧
  (st.allFonts.map (·.id)).Nodup ∧ (st.allFonts.map (·.href)).Nodup

/-- Hygiene of the books actually read by the extraction: manifest item ids
pairwise distinct and underscore-free, spine idrefs pairwise distinct. -/
def GoodBooks (zips : List Zip) : Prop :=
  ∀ z ∈ zips, ∀ o m s bd, bookView? z = some (o, m, s, bd) →
    (m.map (·.id)).Nodup ∧ (∀ it ∈ m, ('_' : Char) ∉ it.id.data) ∧ s.Nodup

/-- Executable hygiene check mirroring `GoodBooks`. -/
def goodBooksB (zips : List Zip) : Bool :=
  zips.all fun z =>
    match bookView? z with
    | none => true
    | some (_, m, s, _) =>
      decide (m.map (·.id)).Nodup
        && decide (∀ it ∈ m, ('_' : Char) ∉ it.id.data)
        && decide s.Nodup

/-! ## Concrete example inputs used by witnesses and counterexamples -/

/-- A book whose single image file name carries the JavaScript substitution
sequence `$&`: the asset's new path then contains `$&`, which the string
replacement expands to the matched text instead of inserting the path
literally. -/
def dollarBook : Zip :=
  [("META-INF/container.xml", EData.containerDoc (some "OEBPS/content.opf")),
   ("OEBPS/content.opf", EData.opfDoc
     { title := some "Dollar", author := none, language := none,
       manifest := some
         [{ id := "ch", href := "ch.xhtml", mediaType := "application/xhtml+xml" },
          { id := "d", href := "p$&q.jpg", mediaType := "image/jpeg" }],
       spine := some ["ch"] }),
   ("OEBPS/ch.xhtml", EData.raw "<img src=\"p$&q.jpg\"/>"),
   ("OEBPS/p$&q.jpg", EData.raw "IMG")]

/-- A single-chapter, single-image, single-style book (book of index 0):
chapter `ch.xhtml` references `pic.jpg` and `main.css`. -/
def simpleBook : Zip :=
  [("META-INF/container.xml", EData.containerDoc (some "OEBPS/content.opf")),
   ("OEBPS/content.opf", EData.opfDoc
     { title := some "Alpha", author := some "A. Author", language := some "fr",
       manifest := some
         [{ id := "ch", href := "ch.xhtml", mediaType := "application/xhtml+xml" },
          { id := "p", href := "pic.jpg", mediaType := "image/jpeg" },
          { id := "c", href := "main.css", mediaType := "text/css" }],
       spine := some ["ch"] }),
   ("OEBPS/ch.xhtml", EData.raw "<img src=\"pic.jpg\"/><link href=\"main.css\"/>"),
   ("OEBPS/pic.jpg", EData.raw "IMGBYTES"),
   ("OEBPS/main.css", EData.raw "body: em")]

/-- A second simple book (used as book of index 1): one chapter, no
metadata, a dangling second spine idref. -/
def secondBook : Zip :=
  [("META-INF/container.xml", EData.containerDoc (some "content.opf")),
   ("content.opf", EData.opfDoc
     { title := none, author := none, language := some "de",
       manifest := some
         [{ id := "only", href := "one.xhtml", mediaType := "application/xhtml+xml" }],
       spine := some ["only", "ghost"] }),
   ("one.xhtml", EData.raw "<p>two</p>")]

/-- Two manifest image items with distinct ids `a` and `a_b` and distinct
source files `b_c.jpg` and `c.jpg` — a perfectly well-formed book on which
the generated image hrefs `Images/img_0_{id}_{basename}` coincide. -/
def collidingHrefBook : Zip :=
  [("META-INF/container.xml", EData.containerDoc (some "OEBPS/content.opf")),
   ("OEBPS/content.opf", EData.opfDoc
     { title := some "T", author := none, language := none,
       manifest := some
         [{ id := "ch", href := "ch.xhtml", mediaType := "application/xhtml+xml" },
          { id := "a", href := "b_c.jpg", mediaType := "image/jpeg" },
          { id := "a_b", href := "c.jpg", mediaType := "image/jpeg" }],
       spine := some ["ch"] }),
   ("OEBPS/ch.xhtml", EData.raw "<p>x</p>"),
   ("OEBPS/b_c.jpg", EData.raw "IMG1"),
   ("OEBPS/c.jpg", EData.raw "IMG2")]

/-- A book with one chapter that references a font file: the manifest
declares `f.ttf` as `font/ttf` and the chapter mentions it literally. -/
def fontBook : Zip :=
  [("META-INF/container.xml", EData.containerDoc (some "OEBPS/content.opf")),
   ("OEBPS/content.opf", EData.opfDoc
     { title := some "F", author := none, language := none,
       manifest := some
         [{ id := "ch", href := "ch.xhtml", mediaType := "application/xhtml+xml" },
          { id := "f", href := "f.ttf", mediaType := "font/ttf" }],
       spine := some ["ch"] }),
   ("OEBPS/ch.xhtml", EData.raw "<style>@font-face src: url(f.ttf)</style>"),
   ("OEBPS/f.ttf", EData.raw "TTFBYTES")]

/-- A book with two image manifest items `a` and `b` that share the same
source file `pic.jpg` (legal in EPUB), and one chapter referencing it. -/
def twinHrefBook : Zip :=
  [("META-INF/container.xml", EData.containerDoc (some "OEBPS/content.opf")),
   ("OEBPS/content.opf", EData.opfDoc
     { title := some "W", author := none, language := none,
       manifest := some
         [{ id := "ch", href := "ch.xhtml", mediaType := "application/xhtml+xml" },
          { id := "a", href := "pic.jpg", mediaType := "image/jpeg" },
          { id := "b", href := "pic.jpg", mediaType := "image/jpeg" }],
       spine := some ["ch"] }),
   ("OEBPS/ch.xhtml", EData.raw "<img src=\"pic.jpg\"/>"),
   ("OEBPS/pic.jpg", EData.raw "IMGBYTES")]

/-- Files of a one-chapter book used to witness dangling-spine skipping. -/
def c7files : List (String × EData) := [("one.xhtml", EData.raw "<p>two</p>")]

/-- The single manifest item of the dangling-spine witness book. -/
def c7item : ManifestItem :=
  { id := "only", href := "one.xhtml", mediaType := "application/xhtml+xml" }

/-- Package document of the dangling-spine witness book (spine filled in by
the claim's statement). -/
def c7opf : OpfData :=
  { title := none, author := none, language := none,
    manifest := some [c7item], spine := none }

/-- A book whose archive has no `META-INF/container.xml` entry. -/
def zipNoContainer : Zip := [("OEBPS/content.opf", EData.raw "<package/>")]

/-- A book whose container points at a package document missing from the
archive — a different structural failure. -/
def zipNoOpf : Zip :=
  [("META-INF/container.xml", EData.containerDoc (some "OEBPS/content.opf"))]

/-- A cross-book image whose `originalHref` matches the chapter text. -/
def imgOtherBook : Asset :=
  { id := "img_1_x", href := "OEBPS/Images/img_1_x_pic.jpg", content := "I",
    mediaType := "image/jpeg", originalHref := "pic.jpg", bookIndex := 1 }

/-- A cross-book style whose `originalHref` matches the chapter text. -/
def styleOtherBook : Style :=
  { id := "style_1_y", href := "OEBPS/Styles/style_1_y_s.css", content := "S",
    originalHref := "s.css", bookIndex := 1 }

/-- A chapter of book 0 textually mentioning both cross-book hrefs. -/
def chapterBook0 : Chapter :=
  { id := "chapter_0_c", href := "OEBPS/Text/chapter_0_c.xhtml",
    content := "<img src=\"pic.jpg\"/><link href=\"s.css\"/>",
    originalHref := "c.xhtml", bookIndex := 0 }

/-! ## Claim C10: the empty input list -/

/-- C10: `combineEpubs` enforces no minimum input count: on the empty list
the per-book loop never runs, the merge succeeds, the output spine is just
the synthetic TOC page, there are no chapters or assets, and the TOC body
is empty (header directly followed by footer). -/
theorem c10_empty_input_succeeds (ident : String) :
    (combineEpubs [] ident).map spineOf = Except.ok (some ["toc-page"]) ∧
    (extractBooks [] ident).map (·.allChapters) = Except.ok [] ∧
    (extractBooks [] ident).map (·.allImages) = Except.ok [] ∧
    (extractBooks [] ident).map (·.allStyles) = Except.ok [] ∧
    (extractBooks [] ident).map (·.allFonts) = Except.ok [] ∧
    (extractBooks [] ident).map (fun st => tocHTML (rewritePass st)) =
      Except.ok (tocHeader ++ tocFooter) := by
  refine ⟨rfl, rfl, rfl, rfl, rfl, ?_⟩
  show Except.ok (tocHeader ++ String.join [] ++ tocFooter) = _
  simp [String.join]

/-! ## Claim C6: error kinds -/

/-- C6 counterexample: the code defines no error kinds at all.  A missing
`META-INF/container.xml` does not fail with an `InvalidContainerError`; it
fails with the generic `TypeError` raised by calling `.async` on the `null`
that `zip.file` returned — and a completely different structural failure (a
missing package document) raises the very same error, so fatal failures are
not distinguishable by kind. -/
theorem c6_counterexample :
    combineEpubs [zipNoContainer] "uuid-0" = Except.error nullAsyncMsg ∧
    combineEpubs [zipNoOpf] "uuid-0" = Except.error nullAsyncMsg := by
  exact ⟨rfl, rfl⟩

/-- C6 amended: when a source book's `META-INF/container.xml` is absent the
merge does fail, but with the generic null-dereference `TypeError` of the
untyped exception channel — the core never constructs a named error kind,
so fatal failures are distinguishable only by free-text message. -/
theorem c6_missing_container_fails_generic (z : Zip) (rest : List Zip) (ident : String)
    (h : zipLookup z "META-INF/container.xml" = none) :
    combineEpubs (z :: rest) ident = Except.error nullAsyncMsg := by
  simp [combineEpubs, extractBooks, extractGo, processBook, h, Except.map,
    Bind.bind, Except.bind]

/-- Witness for `c6_missing_container_fails_generic` at a concrete input. -/
theorem c6_missing_container_fails_generic_witness :
    combineEpubs [zipNoContainer] "uuid-1" = Except.error nullAsyncMsg :=
  c6_missing_container_fails_generic zipNoContainer [] "uuid-1" rfl

/-! ## Claim C2: cross-book assets never touch a chapter -/

/-- With a step function that leaves the accumulator unchanged on one
element, folding over the list with that element inserted equals folding
without it. -/
theorem foldl_insert_skipped {α β : Type} (f : β → α → β) (a : α) (l1 l2 : List α)
    (init : β) (h : ∀ acc, f acc a = acc) :
    List.foldl f init (l1 ++ a :: l2) = List.foldl f init (l1 ++ l2) := by
  induction l1 generalizing init with
  | nil => simp [h]
  | cons x xs ih => simp only [List.cons_append, List.foldl_cons]; exact ih _

/-- C2: the Reference Rewriter ignores every asset whose `bookIndex`
differs from the chapter's: inserting such an image `a` and such a style
`s` anywhere into the asset lists leaves the chapter's rewritten content
bit-identical, even when their `originalHref` occurs literally in the
chapter text.  (Fonts are not consulted by the rewrite pass at all, so a
cross-book font trivially cannot modify a chapter either.) -/
theorem c2_cross_book_assets_never_rewrite (c : Chapter) (a : Asset) (s : Style)
    (imgs1 imgs2 : List Asset) (sts1 sts2 : List Style)
    (ha : a.bookIndex ≠ c.bookIndex) (hs : s.bookIndex ≠ c.bookIndex) :
    rewriteChapter (imgs1 ++ a :: imgs2) (sts1 ++ s :: sts2) c =
      rewriteChapter (imgs1 ++ imgs2) (sts1 ++ sts2) c := by
  unfold rewriteChapter rewriteContent
  rw [foldl_insert_skipped _ a imgs1 imgs2 _ (fun acc => by simp [ha]),
      foldl_insert_skipped _ s sts1 sts2 _ (fun acc => by simp [hs])]

/-- Witness for `c2_cross_book_assets_never_rewrite` at concrete records. -/
theorem c2_cross_book_assets_never_rewrite_witness :
    imgOtherBook.bookIndex ≠ chapterBook0.bookIndex ∧
    styleOtherBook.bookIndex ≠ chapterBook0.bookIndex ∧
    rewriteChapter ([] ++ imgOtherBook :: []) ([] ++ styleOtherBook :: []) chapterBook0 =
      rewriteChapter ([] ++ []) ([] ++ []) chapterBook0 :=
  ⟨by decide, by decide,
    c2_cross_book_assets_never_rewrite chapterBook0 imgOtherBook styleOtherBook
      [] [] [] [] (by decide) (by decide)⟩

/-! ## Properties of the literal-replacement semantics -/

/-- `leadsWith` decides "is a leading segment of". -/
theorem leadsWith_iff (p : List Char) : ∀ t, leadsWith p t = true ↔ ∃ rest, t = p ++ rest := by
  induction p with
  | nil => intro t; simp [leadsWith]
  | cons a as ih =>
    intro t
    cases t with
    | nil => simp [leadsWith]
    | cons b bs =>
      simp only [leadsWith, List.cons_append]
      by_cases hab : a = b
      · subst hab; simp [ih bs]
      · simp only [if_neg hab, Bool.false_eq_true, false_iff, not_exists]
        intro rest hrest
        injection hrest with h1 _
        exact hab h1.symm

/-- `hasSub` decides "occurs as a contiguous segment". -/
theorem hasSub_iff (p : List Char) : ∀ t, hasSub p t = true ↔ ∃ pre post, t = pre ++ p ++ post := by
  intro t
  induction t with
  | nil =>
    show leadsWith p [] = true ↔ _
    rw [leadsWith_iff]
    constructor
    · rintro ⟨rest, h⟩
      obtain ⟨hp, -⟩ := List.append_eq_nil.mp h.symm
      exact ⟨[], [], by simp [hp]⟩
    · rintro ⟨pre, post, h⟩
      rw [List.append_assoc] at h
      obtain ⟨-, h2⟩ := List.append_eq_nil.mp h.symm
      obtain ⟨hp, -⟩ := List.append_eq_nil.mp h2
      exact ⟨[], by simp [hp]⟩
  | cons c rest ih =>
    show (leadsWith p (c :: rest) || hasSub p rest) = true ↔ _
    rw [Bool.or_eq_true, leadsWith_iff, ih]
    constructor
    · rintro (⟨r, hr⟩ | ⟨pre, post, h⟩)
      · exact ⟨[], r, by simp [hr]⟩
      · exact ⟨c :: pre, post, by simp [h]⟩
    · rintro ⟨pre, post, h⟩
      cases pre with
      | nil => exact Or.inl ⟨post, by simpa using h⟩
      | cons x xs =>
        simp only [List.cons_append] at h
        injection h with h1 h2
        exact Or.inr ⟨xs, post, h2⟩

/-- A non-empty pattern never leads an empty text. -/
theorem leadsWith_nil_of_ne (p : List Char) (hp : p ≠ []) : leadsWith p [] = false := by
  cases p with
  | nil => exact absurd rfl hp
  | cons a as => rfl

/-- A leading pattern is no longer than the text. -/
theorem leadsWith_length_le {p t : List Char} (h : leadsWith p t = true) : p.length ≤ t.length := by
  obtain ⟨rest, hrest⟩ := (leadsWith_iff p t).mp h
  subst hrest
  simp

/-- On a `$`-free replacement, `GetSubstitution` is the identity. -/
theorem getSubst_id (m p q : List Char) :
    ∀ rep, ('$' : Char) ∉ rep → getSubst m p q rep = rep := by
  intro rep
  induction rep with
  | nil => intro _; rfl
  | cons c rest ih =>
    intro h
    have hc : ¬ c = '$' := by
      intro hc
      subst hc
      exact h (List.mem_cons_self _ _)
    unfold getSubst
    rw [if_neg hc, ih (fun hm => h (List.mem_cons_of_mem c hm))]

/-- `replaceAllAux` of the empty text is empty, whatever the fuel. -/
theorem replaceAllAux_nil (pat rep : List Char) :
    ∀ f pre, replaceAllAux pat rep f pre [] = [] := by
  intro f pre
  cases f with
  | zero => rfl
  | succ f' =>
    cases pat with
    | nil => simp [replaceAllAux]
    | cons a as => simp [replaceAllAux, leadsWith]

/-- For a `$`-free replacement the consumed prefix is irrelevant to
`replaceAllAux`. -/
theorem replaceAllAux_pre (pat rep : List Char) (hd : ('$' : Char) ∉ rep) :
    ∀ f pre pre' t, replaceAllAux pat rep f pre t = replaceAllAux pat rep f pre' t := by
  intro f
  induction f with
  | zero => intro pre pre' t; rfl
  | succ f' ih =>
    intro pre pre' t
    show (if pat ≠ [] ∧ leadsWith pat t then _ else _) = (if pat ≠ [] ∧ leadsWith pat t then _ else _)
    by_cases hc : pat ≠ [] ∧ leadsWith pat t = true
    · rw [if_pos hc, if_pos hc, getSubst_id _ _ _ rep hd, getSubst_id _ _ _ rep hd,
        ih (pre ++ pat) (pre' ++ pat) (t.drop pat.length)]
    · rw [if_neg hc, if_neg hc]
      cases t with
      | nil => rfl
      | cons c rest =>
        show c :: replaceAllAux pat rep f' (pre ++ [c]) rest
            = c :: replaceAllAux pat rep f' (pre' ++ [c]) rest
        rw [ih (pre ++ [c]) (pre' ++ [c]) rest]

/-- `replaceAllAux` does not depend on the fuel, once the fuel covers the
text length. -/
theorem replaceAllAux_fuel (pat rep : List Char) :
    ∀ f g pre t, t.length ≤ f → t.length ≤ g →
      replaceAllAux pat rep f pre t = replaceAllAux pat rep g pre t := by
  intro f
  induction f with
  | zero =>
    intro g pre t hf _
    have ht : t = [] := List.eq_nil_of_length_eq_zero (Nat.le_zero.mp hf)
    subst ht
    rw [replaceAllAux_nil, replaceAllAux_nil]
  | succ f' ih =>
    intro g pre t hf hg
    cases g with
    | zero =>
      have ht : t = [] := List.eq_nil_of_length_eq_zero (Nat.le_zero.mp hg)
      subst ht
      rw [replaceAllAux_nil, replaceAllAux_nil]
    | succ g' =>
      show (if pat ≠ [] ∧ leadsWith pat t then _ else _) = (if pat ≠ [] ∧ leadsWith pat t then _ else _)
      by_cases hc : pat ≠ [] ∧ leadsWith pat t = true
      · rw [if_pos hc, if_pos hc]
        have hplen : 1 ≤ pat.length := by
          cases pat with
          | nil => exact absurd rfl hc.1
          | cons a as => simp
        have hd : (t.drop pat.length).length ≤ f' := by
          simp only [List.length_drop]
          omega
        have hd' : (t.drop pat.length).length ≤ g' := by
          simp only [List.length_drop]
          omega
        rw [ih g' _ _ hd hd']
      · rw [if_neg hc, if_neg hc]
        cases t with
        | nil => rfl
        | cons c rest =>
          simp only [List.length_cons] at hf hg
          show c :: replaceAllAux pat rep f' (pre ++ [c]) rest
              = c :: replaceAllAux pat rep g' (pre ++ [c]) rest
          rw [ih g' (pre ++ [c]) rest (by omega) (by omega)]

/-- Unfolding `replaceAllL` at a match, for a `$`-free replacement. -/
theorem replaceAllL_head (pat rep t : List Char) (hp : pat ≠ [])
    (hd : ('$' : Char) ∉ rep) (h : leadsWith pat t = true) :
    replaceAllL pat rep t = rep ++ replaceAllL pat rep (t.drop pat.length) := by
  cases t with
  | nil =>
    rw [leadsWith_nil_of_ne pat hp] at h
    exact absurd h (by simp)
  | cons c rest =>
    show (if pat = [] then _ else replaceAllAux pat rep (c :: rest).length [] (c :: rest)) = _
    rw [if_neg hp]
    show replaceAllAux pat rep (rest.length + 1) [] (c :: rest) = _
    rw [show replaceAllAux pat rep (rest.length + 1) [] (c :: rest) =
          getSubst pat [] ((c :: rest).drop pat.length) rep
            ++ replaceAllAux pat rep rest.length pat ((c :: rest).drop pat.length) from by
        simp [replaceAllAux, hp, h]]
    rw [getSubst_id _ _ _ rep hd]
    have hplen : 1 ≤ pat.length := by
      cases pat with
      | nil => exact absurd rfl hp
      | cons a as => simp
    rw [replaceAllL, if_neg hp]
    rw [replaceAllAux_pre pat rep hd rest.length pat [] ((c :: rest).drop pat.length)]
    rw [replaceAllAux_fuel pat rep rest.length ((c :: rest).drop pat.length).length [] _
      (by simp only [List.length_drop, List.length_cons]; omega) (le_refl _)]

/-- Unfolding `replaceAllL` at a non-match, for a `$`-free replacement. -/
theorem replaceAllL_cons (pat rep : List Char) (c : Char) (rest : List Char) (hp : pat ≠ [])
    (hd : ('$' : Char) ∉ rep) (h : ¬ leadsWith pat (c :: rest) = true) :
    replaceAllL pat rep (c :: rest) = c :: replaceAllL pat rep rest := by
  show (if pat = [] then _ else replaceAllAux pat rep (c :: rest).length [] (c :: rest)) = _
  rw [if_neg hp]
  show replaceAllAux pat rep (rest.length + 1) [] (c :: rest) = _
  rw [show replaceAllAux pat rep (rest.length + 1) [] (c :: rest) =
        c :: replaceAllAux pat rep rest.length [c] rest from by
      simp [replaceAllAux, h]]
  rw [replaceAllL, if_neg hp]
  rw [replaceAllAux_pre pat rep hd rest.length [c] [] rest]

/-- If the pattern occurs in the text, a `$`-free replacement occurs in
the result of `replaceAllL`. -/
theorem replaceAllL_contains_rep (pat rep : List Char) (hp : pat ≠ [])
    (hd : ('$' : Char) ∉ rep) :
    ∀ n t, t.length = n → hasSub pat t = true →
      ∃ a b, replaceAllL pat rep t = a ++ rep ++ b := by
  intro n
  induction n using Nat.strong_induction_on with
  | _ n ih =>
    intro t hlen hsub
    by_cases hl : leadsWith pat t = true
    · rw [replaceAllL_head pat rep t hp hd hl]
      exact ⟨[], replaceAllL pat rep (t.drop pat.length), by simp⟩
    · cases t with
      | nil =>
        rw [show hasSub pat [] = leadsWith pat [] from rfl,
          leadsWith_nil_of_ne pat hp] at hsub
        exact absurd hsub (by simp)
      | cons c rest =>
        have hrest : hasSub pat rest = true := by
          have : (leadsWith pat (c :: rest) || hasSub pat rest) = true := hsub
          rcases Bool.or_eq_true_iff.mp this with h' | h'
          · exact absurd h' hl
          · exact h'
        obtain ⟨a, b, hab⟩ :=
          ih rest.length (by simp only [List.length_cons] at hlen; omega) rest rfl hrest
        exact ⟨c :: a, b, by rw [replaceAllL_cons pat rep c rest hp hd hl, hab]; simp⟩

/-- No match in the empty text for a non-empty pattern. -/
theorem firstMatch_nil (pat : List Char) (hp : pat ≠ []) : firstMatch pat [] = none := by
  show (List.range 1).find? _ = none
  rw [show List.range 1 = [0] from rfl]
  simp [List.find?, leadsWith_nil_of_ne pat hp]

/-- A leading match is the leftmost match. -/
theorem firstMatch_head (pat t : List Char) (h : leadsWith pat t = true) :
    firstMatch pat t = some 0 := by
  rw [firstMatch, List.range_succ_eq_map, List.find?_cons_of_pos]
  simpa using h

/-- With no leading match, the leftmost match is one deeper in the tail. -/
theorem firstMatch_cons (pat : List Char) (c : Char) (rest : List Char)
    (h : ¬ leadsWith pat (c :: rest) = true) :
    firstMatch pat (c :: rest) = (firstMatch pat rest).map (· + 1) := by
  rw [firstMatch, show (c :: rest).length = rest.length + 1 from rfl,
    List.range_succ_eq_map, List.find?_cons_of_neg _ (by simpa using h)]
  rw [List.find?_map]
  rfl

/-- A match position plus the pattern fits inside the text. -/
theorem firstMatch_bound (pat t : List Char) {i : Nat} (h : firstMatch pat t = some i) :
    i ≤ t.length ∧ pat.length ≤ t.length - i := by
  have hmem := List.mem_of_find?_eq_some h
  have hpred := List.find?_some h
  constructor
  · have := List.mem_range.mp hmem
    omega
  · have := leadsWith_length_le hpred
    simpa using this

/-- `specReplaceAux` is the identity when there is no match, whatever the
fuel. -/
theorem specReplaceAux_no_match (pat rep t : List Char) (h : firstMatch pat t = none) :
    ∀ f, specReplaceAux pat rep f t = t := by
  intro f
  cases f with
  | zero => rfl
  | succ f' => simp [specReplaceAux, h]

/-- `specReplaceAux` does not depend on the fuel, once the fuel covers the
text length (for a non-empty pattern). -/
theorem specReplaceAux_fuel (pat rep : List Char) (hp : pat ≠ []) :
    ∀ f g t, t.length ≤ f → t.length ≤ g →
      specReplaceAux pat rep f t = specReplaceAux pat rep g t := by
  intro f
  induction f with
  | zero =>
    intro g t hf _
    have ht : t = [] := List.eq_nil_of_length_eq_zero (Nat.le_zero.mp hf)
    subst ht
    rw [specReplaceAux_no_match pat rep [] (firstMatch_nil pat hp),
      specReplaceAux_no_match pat rep [] (firstMatch_nil pat hp)]
  | succ f' ih =>
    intro g t hf hg
    cases g with
    | zero =>
      have ht : t = [] := List.eq_nil_of_length_eq_zero (Nat.le_zero.mp hg)
      subst ht
      rw [specReplaceAux_no_match pat rep [] (firstMatch_nil pat hp),
        specReplaceAux_no_match pat rep [] (firstMatch_nil pat hp)]
    | succ g' =>
      show (match firstMatch pat t with
            | none => t
            | some i => t.take i ++ rep ++ specReplaceAux pat rep f' (t.drop (i + pat.length)))
          = (match firstMatch pat t with
            | none => t
            | some i => t.take i ++ rep ++ specReplaceAux pat rep g' (t.drop (i + pat.length)))
      cases hm : firstMatch pat t with
      | none => rfl
      | some i =>
        obtain ⟨hi, hlen⟩ := firstMatch_bound pat t hm
        have hplen : 1 ≤ pat.length := by
          cases pat with
          | nil => exact absurd rfl hp
          | cons a as => simp
        have hd : (t.drop (i + pat.length)).length ≤ f' := by
          simp only [List.length_drop]
          omega
        have hd' : (t.drop (i + pat.length)).length ≤ g' := by
          simp only [List.length_drop]
          omega
        show t.take i ++ rep ++ specReplaceAux pat rep f' (t.drop (i + pat.length))
            = t.take i ++ rep ++ specReplaceAux pat rep g' (t.drop (i + pat.length))
        rw [ih g' _ hd hd']

/-- Unfolding `specReplaceL` at a match. -/
theorem specReplaceL_head (pat rep t : List Char) (hp : pat ≠ [])
    (h : leadsWith pat t = true) :
    specReplaceL pat rep t = rep ++ specReplaceL pat rep (t.drop pat.length) := by
  cases t with
  | nil =>
    rw [leadsWith_nil_of_ne pat hp] at h
    exact absurd h (by simp)
  | cons c rest =>
    show specReplaceAux pat rep (rest.length + 1) (c :: rest) = _
    rw [show specReplaceAux pat rep (rest.length + 1) (c :: rest)
          = match firstMatch pat (c :: rest) with
            | none => c :: rest
            | some i => (c :: rest).take i ++ rep
                ++ specReplaceAux pat rep rest.length ((c :: rest).drop (i + pat.length)) from rfl]
    rw [firstMatch_head pat (c :: rest) h]
    have hplen : 1 ≤ pat.length := by
      cases pat with
      | nil => exact absurd rfl hp
      | cons a as => simp
    show rep ++ specReplaceAux pat rep rest.length ((c :: rest).drop (0 + pat.length)) = _
    rw [specReplaceL, specReplaceAux_fuel pat rep hp rest.length
      ((c :: rest).drop (0 + pat.length)).length _
      (by simp only [List.length_drop, List.length_cons]; omega) (le_refl _)]
    rw [Nat.zero_add]

/-- Unfolding `specReplaceL` at a non-match. -/
theorem specReplaceL_cons (pat rep : List Char) (c : Char) (rest : List Char) (hp : pat ≠ [])
    (h : ¬ leadsWith pat (c :: rest) = true) :
    specReplaceL pat rep (c :: rest) = c :: specReplaceL pat rep rest := by
  show specReplaceAux pat rep (rest.length + 1) (c :: rest) = _
  rw [show specReplaceAux pat rep (rest.length + 1) (c :: rest)
        = match firstMatch pat (c :: rest) with
          | none => c :: rest
          | some i => (c :: rest).take i ++ rep
              ++ specReplaceAux pat rep rest.length ((c :: rest).drop (i + pat.length)) from rfl]
  rw [firstMatch_cons pat c rest h]
  cases hm : firstMatch pat rest with
  | none =>
    show c :: rest = c :: specReplaceL pat rep rest
    rw [specReplaceL, specReplaceAux_no_match pat rep rest hm]
  | some i =>
    show (c :: rest).take (i + 1) ++ rep
        ++ specReplaceAux pat rep rest.length ((c :: rest).drop (i + 1 + pat.length)) = _
    cases rest with
    | nil => rw [firstMatch_nil pat hp] at hm; exact absurd hm (by simp)
    | cons d ds =>
      obtain ⟨hi, hlen⟩ := firstMatch_bound pat (d :: ds) hm
      have hplen : 1 ≤ pat.length := by
        cases pat with
        | nil => exact absurd rfl hp
        | cons a as => simp
      rw [specReplaceL,
        show specReplaceAux pat rep (d :: ds).length (d :: ds)
            = match firstMatch pat (d :: ds) with
              | none => d :: ds
              | some j => (d :: ds).take j ++ rep
                  ++ specReplaceAux pat rep ds.length ((d :: ds).drop (j + pat.length)) from rfl,
        hm]
      have hidx : i + 1 + pat.length = (i + pat.length) + 1 := by omega
      rw [hidx, List.take_succ_cons, List.drop_succ_cons,
        specReplaceAux_fuel pat rep hp (d :: ds).length ds.length ((d :: ds).drop (i + pat.length))
          (by simp only [List.length_drop]; omega)
          (by simp only [List.length_drop, List.length_cons] at hi hlen ⊢; omega)]
      simp

/-- The embedding of the JavaScript global replace agrees with the spec's
"replace every literal, non-overlapping occurrence, left to right" for
non-empty patterns and `$`-free replacements (on a replacement with a live
`$`-sequence the two genuinely differ: `GetSubstitution` rewrites it). -/
theorem replaceAllL_eq_specReplaceL (pat rep : List Char) (hp : pat ≠ [])
    (hd : ('$' : Char) ∉ rep) :
    ∀ n t, t.length = n → replaceAllL pat rep t = specReplaceL pat rep t := by
  intro n
  induction n using Nat.strong_induction_on with
  | _ n ih =>
    intro t hlen
    by_cases hl : leadsWith pat t = true
    · have hplen : 1 ≤ pat.length := by
        cases pat with
        | nil => exact absurd rfl hp
        | cons a as => simp
      have htlen : 1 ≤ t.length := le_trans hplen (leadsWith_length_le hl)
      rw [replaceAllL_head pat rep t hp hd hl, specReplaceL_head pat rep t hp hl,
        ih (t.drop pat.length).length (by simp only [List.length_drop]; omega) _ rfl]
    · cases t with
      | nil =>
        show replaceAllL pat rep [] = specReplaceAux pat rep 0 []
        rw [replaceAllL, if_neg hp]
        rw [replaceAllAux_nil]
        rfl
      | cons c rest =>
        rw [replaceAllL_cons pat rep c rest hp hd hl, specReplaceL_cons pat rep c rest hp hl,
          ih rest.length (by simp only [List.length_cons] at hlen; omega) rest rfl]

/-- A string differing from `""` has non-empty character data. -/
theorem data_ne_nil_of_ne_empty {s : String} (h : s ≠ "") : s.data ≠ [] := by
  intro hd
  apply h
  cases s with
  | mk d =>
    cases hd
    rfl

/-- The JavaScript global replace agrees with the spec's leftmost
non-overlapping replacement, on strings with a non-empty pattern and a
`$`-free replacement. -/
theorem replaceAllStr_eq_specReplaceStr (pat rep s : String) (hp : pat ≠ "")
    (hd : ('$' : Char) ∉ rep.data) :
    replaceAllStr pat rep s = specReplaceStr pat rep s :=
  congrArg String.mk
    (replaceAllL_eq_specReplaceL pat.data rep.data (data_ne_nil_of_ne_empty hp) hd
      s.data.length s.data rfl)

/-- The image half of the rewrite step equals a fold of spec-replacements
over exactly the same-book images, when their new paths are `$`-free. -/
theorem rewrite_images_spec (bi : Nat) :
    ∀ (imgs : List Asset), (∀ a ∈ imgs, a.bookIndex = bi → a.originalHref ≠ "") →
    (∀ a ∈ imgs, a.bookIndex = bi → ('$' : Char) ∉ (relPathOf a.href).data) →
    ∀ content,
      imgs.foldl (fun acc img =>
        if img.bookIndex = bi then replaceAllStr img.originalHref (relPathOf img.href) acc
        else acc) content
      = (imgs.filter (fun a => a.bookIndex == bi)).foldl
          (fun acc a => specReplaceStr a.originalHref (relPathOf a.href) acc) content := by
  intro imgs
  induction imgs with
  | nil => intro _ _ content; rfl
  | cons a rest ih =>
    intro h hD content
    by_cases hb : a.bookIndex = bi
    · have ha := h a (List.mem_cons_self a rest) hb
      have haD := hD a (List.mem_cons_self a rest) hb
      rw [List.foldl_cons, if_pos hb, List.filter_cons_of_pos (by simpa using hb),
        List.foldl_cons, replaceAllStr_eq_specReplaceStr _ _ _ ha haD]
      exact ih (fun x hx hbx => h x (List.mem_cons_of_mem a hx) hbx)
        (fun x hx hbx => hD x (List.mem_cons_of_mem a hx) hbx) _
    · rw [List.foldl_cons, if_neg hb, List.filter_cons_of_neg (by simpa using hb)]
      exact ih (fun x hx hbx => h x (List.mem_cons_of_mem a hx) hbx)
        (fun x hx hbx => hD x (List.mem_cons_of_mem a hx) hbx) _

/-- The style half of the rewrite step equals a fold of spec-replacements
over exactly the same-book styles, when their new paths are `$`-free. -/
theorem rewrite_styles_spec (bi : Nat) :
    ∀ (sts : List Style), (∀ s ∈ sts, s.bookIndex = bi → s.originalHref ≠ "") →
    (∀ s ∈ sts, s.bookIndex = bi → ('$' : Char) ∉ (relPathOf s.href).data) →
    ∀ content,
      sts.foldl (fun acc s =>
        if s.bookIndex = bi then replaceAllStr s.originalHref (relPathOf s.href) acc
        else acc) content
      = (sts.filter (fun s => s.bookIndex == bi)).foldl
          (fun acc s => specReplaceStr s.originalHref (relPathOf s.href) acc) content := by
  intro sts
  induction sts with
  | nil => intro _ _ content; rfl
  | cons a rest ih =>
    intro h hD content
    by_cases hb : a.bookIndex = bi
    · have ha := h a (List.mem_cons_self a rest) hb
      have haD := hD a (List.mem_cons_self a rest) hb
      rw [List.foldl_cons, if_pos hb, List.filter_cons_of_pos (by simpa using hb),
        List.foldl_cons, replaceAllStr_eq_specReplaceStr _ _ _ ha haD]
      exact ih (fun x hx hbx => h x (List.mem_cons_of_mem a hx) hbx)
        (fun x hx hbx => hD x (List.mem_cons_of_mem a hx) hbx) _
    · rw [List.foldl_cons, if_neg hb, List.filter_cons_of_neg (by simpa using hb)]
      exact ih (fun x hx hbx => h x (List.mem_cons_of_mem a hx) hbx)
        (fun x hx hbx => hD x (List.mem_cons_of_mem a hx) hbx) _

/-! ## Claim C4: what the Reference Rewriter processes -/

/-- C4 counterexample, in two parts.  Fonts: in `fontBook` the chapter and
the font share `bookIndex` 0, the chapter's text contains the font's
`originalHref` `f.ttf` literally, and the font's new relative path would be
`../Fonts/font_0_f_f.ttf` — yet the rewritten chapter content is
unchanged: the rewriter does not process fonts.  `$`-substitution: in
`dollarBook` the image's new relative path `../Images/img_0_d_p$&q.jpg`
carries `$&`, which the JavaScript string replacement expands to the
matched text, so the rewritten content holds the mangled
`../Images/img_0_d_pp$&q.jpgq.jpg` and not the asset's new path. -/
theorem c4_counterexample :
    (extractBooks [fontBook] "uuid-2").map (fun st => (rewritePass st).allChapters.map (·.content))
      = Except.ok ["<style>@font-face src: url(f.ttf)</style>"] ∧
    (extractBooks [fontBook] "uuid-2").map (fun st => st.allChapters.map (·.bookIndex))
      = Except.ok [0] ∧
    (extractBooks [fontBook] "uuid-2").map
        (fun st => st.allFonts.map (fun f => (f.bookIndex, f.originalHref, relPathOf f.href)))
      = Except.ok [(0, "f.ttf", "../Fonts/font_0_f_f.ttf")] ∧
    strHasSub "f.ttf" "<style>@font-face src: url(f.ttf)</style>" = true ∧
    strHasSub "../Fonts/font_0_f_f.ttf" "<style>@font-face src: url(f.ttf)</style>" = false ∧
    (extractBooks [dollarBook] "uuid-9").map
        (fun st => st.allImages.map (fun a => (a.bookIndex, a.originalHref, relPathOf a.href)))
      = Except.ok [(0, "p$&q.jpg", "../Images/img_0_d_p$&q.jpg")] ∧
    (extractBooks [dollarBook] "uuid-9").map (fun st => st.allChapters.map (·.content))
      = Except.ok ["<img src=\"p$&q.jpg\"/>"] ∧
    (extractBooks [dollarBook] "uuid-9").map
        (fun st => (rewritePass st).allChapters.map (·.content))
      = Except.ok ["<img src=\"../Images/img_0_d_pp$&q.jpgq.jpg\"/>"] ∧
    strHasSub "../Images/img_0_d_p$&q.jpg"
        "<img src=\"../Images/img_0_d_pp$&q.jpgq.jpg\"/>" = false :=
  ⟨rfl, rfl, rfl, rfl, rfl, rfl, rfl, rfl, rfl⟩

/-- C4 amended: the Reference Rewriter processes, for every Chapter, every
image and style (but not font) Asset with the Chapter's `bookIndex`,
replacing — images first, then styles, in list order — every literal
non-overlapping occurrence of the asset's `originalHref` by
`relPathOf` of its href, i.e. `../` + the href without its leading
`OEBPS/` (the parent-directory marker matching the chapters' nesting
depth).  Stated against the independent leftmost-match replacement
`specReplaceStr`; the hypotheses exclude empty `originalHref`s, where the
JavaScript empty regex would instead interleave, and new paths carrying a
`$` character, where JavaScript `GetSubstitution` would expand
`$$`/`$&`/backquote/quote sequences instead of inserting the path (see
the counterexample). -/
theorem c4_rewrites_same_book_images_and_styles (c : Chapter)
    (imgs : List Asset) (sts : List Style)
    (himg : ∀ a ∈ imgs, a.bookIndex = c.bookIndex → a.originalHref ≠ "")
    (hsty : ∀ s ∈ sts, s.bookIndex = c.bookIndex → s.originalHref ≠ "")
    (himgD : ∀ a ∈ imgs, a.bookIndex = c.bookIndex → ('$' : Char) ∉ (relPathOf a.href).data)
    (hstyD : ∀ s ∈ sts, s.bookIndex = c.bookIndex → ('$' : Char) ∉ (relPathOf s.href).data) :
    (rewriteChapter imgs sts c).content
      = (sts.filter (fun s => s.bookIndex == c.bookIndex)).foldl
          (fun acc s => specReplaceStr s.originalHref (relPathOf s.href) acc)
          ((imgs.filter (fun a => a.bookIndex == c.bookIndex)).foldl
            (fun acc a => specReplaceStr a.originalHref (relPathOf a.href) acc)
            c.content) := by
  show rewriteContent c.bookIndex c.content imgs sts = _
  unfold rewriteContent
  rw [rewrite_images_spec c.bookIndex imgs himg himgD c.content,
    rewrite_styles_spec c.bookIndex sts hsty hstyD _]

/-- A same-book image for the C4/C5 witnesses. -/
def imgSameBook : Asset :=
  { id := "img_0_p", href := "OEBPS/Images/img_0_p_pic.jpg", content := "I",
    mediaType := "image/jpeg", originalHref := "pic.jpg", bookIndex := 0 }

/-- A same-book style for the C4 witness. -/
def styleSameBook : Style :=
  { id := "style_0_c", href := "OEBPS/Styles/style_0_c_main.css", content := "S",
    originalHref := "main.css", bookIndex := 0 }

/-- Witness for `c4_rewrites_same_book_images_and_styles` at concrete
records, the hypotheses discharged by evaluation. -/
theorem c4_rewrites_same_book_images_and_styles_witness :
    (∀ a ∈ [imgSameBook], a.bookIndex = chapterBook0.bookIndex → a.originalHref ≠ "") ∧
    (∀ s ∈ [styleSameBook], s.bookIndex = chapterBook0.bookIndex → s.originalHref ≠ "") ∧
    (∀ a ∈ [imgSameBook], a.bookIndex = chapterBook0.bookIndex →
      ('$' : Char) ∉ (relPathOf a.href).data) ∧
    (∀ s ∈ [styleSameBook], s.bookIndex = chapterBook0.bookIndex →
      ('$' : Char) ∉ (relPathOf s.href).data) ∧
    (rewriteChapter [imgSameBook] [styleSameBook] chapterBook0).content
      = ([styleSameBook].filter (fun s => s.bookIndex == chapterBook0.bookIndex)).foldl
          (fun acc s => specReplaceStr s.originalHref (relPathOf s.href) acc)
          (([imgSameBook].filter (fun a => a.bookIndex == chapterBook0.bookIndex)).foldl
            (fun acc a => specReplaceStr a.originalHref (relPathOf a.href) acc)
            chapterBook0.content) :=
  ⟨by decide, by decide, by decide, by decide,
    c4_rewrites_same_book_images_and_styles chapterBook0 [imgSameBook] [styleSameBook]
      (by decide) (by decide) (by decide) (by decide)⟩

/-! ## Claim C5: the rewritten chapter carries the new reference -/

/-- C5 counterexample, in two parts.  In `twinHrefBook` two same-book
image records share `originalHref` `pic.jpg`; the chapter originally
contains that literal, yet after the rewrite pass the content does not
contain the first image's new relative reference `../Images/img_0_a_pic.jpg`
(the second replacement mangled it), and the original literal `pic.jpg` is
still present.  And in `dollarBook` the image is the *only* same-book
asset, its `originalHref` is non-empty and occurs in the chapter — yet the
rewritten content still does not contain its new relative reference,
because the `$&` in that reference is expanded by the JavaScript string
replacement. -/
theorem c5_counterexample :
    (extractBooks [dollarBook] "uuid-10").map
        (fun st => (st.allImages.length, st.allStyles.length, st.allFonts.length))
      = Except.ok (1, 0, 0) ∧
    (extractBooks [dollarBook] "uuid-10").map
        (fun st => st.allImages.map (fun a => (a.bookIndex, a.originalHref, relPathOf a.href)))
      = Except.ok [(0, "p$&q.jpg", "../Images/img_0_d_p$&q.jpg")] ∧
    (extractBooks [dollarBook] "uuid-10").map
        (fun st => st.allChapters.map (fun c => strHasSub "p$&q.jpg" c.content))
      = Except.ok [true] ∧
    (extractBooks [dollarBook] "uuid-10").map
        (fun st => (rewritePass st).allChapters.map
          (fun c => strHasSub "../Images/img_0_d_p$&q.jpg" c.content))
      = Except.ok [false] ∧
    (extractBooks [twinHrefBook] "uuid-3").map
        (fun st => st.allImages.map (fun a => (a.bookIndex, a.originalHref, relPathOf a.href)))
      = Except.ok [(0, "pic.jpg", "../Images/img_0_a_pic.jpg"),
                   (0, "pic.jpg", "../Images/img_0_b_pic.jpg")] ∧
    (extractBooks [twinHrefBook] "uuid-3").map (fun st => st.allChapters.map (·.content))
      = Except.ok ["<img src=\"pic.jpg\"/>"] ∧
    strHasSub "pic.jpg" "<img src=\"pic.jpg\"/>" = true ∧
    (extractBooks [twinHrefBook] "uuid-3").map
        (fun st => (rewritePass st).allChapters.map (·.content))
      = Except.ok ["<img src=\"../Images/img_0_a_../Images/img_0_b_pic.jpg\"/>"] ∧
    strHasSub "../Images/img_0_a_pic.jpg"
        "<img src=\"../Images/img_0_a_../Images/img_0_b_pic.jpg\"/>" = false ∧
    strHasSub "pic.jpg"
        "<img src=\"../Images/img_0_a_../Images/img_0_b_pic.jpg\"/>" = true :=
  ⟨rfl, rfl, rfl, rfl, rfl, rfl, rfl, rfl, rfl, rfl⟩

/-- C5 amended: for a chapter C and a same-book asset A whose
`originalHref` is non-empty and occurs in C's original content, and whose
new relative path carries no `$` character, if A is the only same-book
asset processed by the rewriter, the rewritten content contains A's new
relative reference.  (The original literal may well remain: when
`originalHref` has no directory prefix it reappears inside the inserted
reference itself — see the counterexample — so the "no longer contains"
half of the claim is dropped; other same-book assets can disturb the
inserted reference; and a `$`-sequence in the new path is expanded by
JavaScript `GetSubstitution` instead of being inserted.) -/
theorem c5_single_asset_reference_inserted (c : Chapter) (a : Asset)
    (hb : a.bookIndex = c.bookIndex) (hne : a.originalHref ≠ "")
    (hD : ('$' : Char) ∉ (relPathOf a.href).data)
    (hocc : strHasSub a.originalHref c.content = true) :
    strHasSub (relPathOf a.href) (rewriteChapter [a] [] c).content = true := by
  show strHasSub (relPathOf a.href) (rewriteContent c.bookIndex c.content [a] []) = true
  unfold rewriteContent
  simp only [List.foldl_cons, List.foldl_nil, if_pos hb]
  obtain ⟨x, y, hxy⟩ := replaceAllL_contains_rep a.originalHref.data (relPathOf a.href).data
    (data_ne_nil_of_ne_empty hne) hD c.content.data.length c.content.data rfl hocc
  show hasSub (relPathOf a.href).data
      (replaceAllL a.originalHref.data (relPathOf a.href).data c.content.data) = true
  rw [hxy]
  exact (hasSub_iff _ _).mpr ⟨x, y, rfl⟩

/-- Witness for `c5_single_asset_reference_inserted` at concrete records. -/
theorem c5_single_asset_reference_inserted_witness :
    imgSameBook.bookIndex = chapterBook0.bookIndex ∧
    imgSameBook.originalHref ≠ "" ∧
    ('$' : Char) ∉ (relPathOf imgSameBook.href).data ∧
    strHasSub imgSameBook.originalHref chapterBook0.content = true ∧
    strHasSub (relPathOf imgSameBook.href)
      (rewriteChapter [imgSameBook] [] chapterBook0).content = true :=
  ⟨by decide, by decide, by decide, by decide,
    c5_single_asset_reference_inserted chapterBook0 imgSameBook
      (by decide) (by decide) (by decide) (by decide)⟩

/-! ## Characterizing the extraction loop -/

/-- The imperative per-book loop equals collecting the per-book batches and
folding them into the working set. -/
theorem extractGo_eq_collect :
    ∀ (zs : List Zip) (i : Nat) (st : ExtractState),
      extractGo i zs st = (collectBatches i zs).map (applyBatches i st) := by
  intro zs
  induction zs with
  | nil => intro i st; rfl
  | cons z rest ih =>
    intro i st
    rw [show extractGo i (z :: rest) st
          = (processBook z i).bind (fun b => extractGo (i + 1) rest (applyBatch st i b)) from rfl,
      show collectBatches i (z :: rest)
          = (processBook z i).bind (fun b =>
              (collectBatches (i + 1) rest).bind (fun bs => Except.ok (b :: bs))) from rfl]
    cases hb : processBook z i with
    | error e => rfl
    | ok b =>
      show extractGo (i + 1) rest (applyBatch st i b) = _
      rw [ih]
      cases hc : collectBatches (i + 1) rest with
      | error e => rfl
      | ok bs => rfl

/-- `processBook` succeeds exactly on books with a resolved view, and then
yields the batch built from that view. -/
theorem processBook_ok_iff (z : Zip) (i : Nat) (b : Batch) :
    processBook z i = Except.ok b ↔
      ∃ o m s bd, bookView? z = some (o, m, s, bd) ∧ b = buildBatch z i bd o m s := by
  unfold processBook bookView?
  cases hc : zipLookup z "META-INF/container.xml" with
  | none => simp [Bind.bind, Except.bind, pure, Except.pure]
  | some e =>
    cases e with
    | raw s => simp [Bind.bind, Except.bind, pure, Except.pure]
    | opfDoc o => simp [Bind.bind, Except.bind, pure, Except.pure]
    | containerDoc p =>
      cases p with
      | none => simp [Bind.bind, Except.bind, pure, Except.pure]
      | some path =>
        cases ho : zipLookup z path with
        | none => simp [Bind.bind, Except.bind, pure, Except.pure, ho]
        | some oe =>
          cases oe with
          | raw s => simp [Bind.bind, Except.bind, pure, Except.pure, ho]
          | containerDoc q => simp [Bind.bind, Except.bind, pure, Except.pure, ho]
          | opfDoc o =>
            cases hm : o.manifest with
            | none => simp [Bind.bind, Except.bind, pure, Except.pure, ho, hm]
            | some m =>
              cases hs : o.spine with
              | none => simp [Bind.bind, Except.bind, pure, Except.pure, ho, hm, hs]
              | some s =>
                simp only [Bind.bind, Except.bind, pure, Except.pure, ho, hm, hs,
                  Except.ok.injEq, Option.some.injEq, Prod.mk.injEq]
                constructor
                · intro h
                  exact ⟨o, m, s, baseDirOf path, ⟨rfl, rfl, rfl, rfl⟩, h.symm⟩
                · rintro ⟨o', m', s', bd', ⟨h1, h2, h3, h4⟩, hb⟩
                  subst h1
                  subst h2
                  subst h3
                  subst h4
                  subst hb
                  rfl

/-- Batches append their chapters onto the accumulated list. -/
theorem applyBatches_allChapters :
    ∀ (bs : List Batch) (i : Nat) (st : ExtractState),
      (applyBatches i st bs).allChapters
        = st.allChapters ++ (bs.map (·.chapters)).flatten := by
  intro bs
  induction bs with
  | nil => intro i st; simp [applyBatches]
  | cons b rest ih =>
    intro i st
    show (applyBatches (i + 1) (applyBatch st i b) rest).allChapters = _
    rw [ih]
    simp [applyBatch, List.append_assoc]

/-- Batches append their images onto the accumulated list. -/
theorem applyBatches_allImages :
    ∀ (bs : List Batch) (i : Nat) (st : ExtractState),
      (applyBatches i st bs).allImages = st.allImages ++ (bs.map (·.images)).flatten := by
  intro bs
  induction bs with
  | nil => intro i st; simp [applyBatches]
  | cons b rest ih =>
    intro i st
    show (applyBatches (i + 1) (applyBatch st i b) rest).allImages = _
    rw [ih]
    simp [applyBatch, List.append_assoc]

/-- Batches append their styles onto the accumulated list. -/
theorem applyBatches_allStyles :
    ∀ (bs : List Batch) (i : Nat) (st : ExtractState),
      (applyBatches i st bs).allStyles = st.allStyles ++ (bs.map (·.styles)).flatten := by
  intro bs
  induction bs with
  | nil => intro i st; simp [applyBatches]
  | cons b rest ih =>
    intro i st
    show (applyBatches (i + 1) (applyBatch st i b) rest).allStyles = _
    rw [ih]
    simp [applyBatch, List.append_assoc]

/-- Batches append their fonts onto the accumulated list. -/
theorem applyBatches_allFonts :
    ∀ (bs : List Batch) (i : Nat) (st : ExtractState),
      (applyBatches i st bs).allFonts = st.allFonts ++ (bs.map (·.fonts)).flatten := by
  intro bs
  induction bs with
  | nil => intro i st; simp [applyBatches]
  | cons b rest ih =>
    intro i st
    show (applyBatches (i + 1) (applyBatch st i b) rest).allFonts = _
    rw [ih]
    simp [applyBatch, List.append_assoc]

/-- Batches append their metadata records onto the accumulated list. -/
theorem applyBatches_bookMetadata :
    ∀ (bs : List Batch) (i : Nat) (st : ExtractState),
      (applyBatches i st bs).bookMetadata = st.bookMetadata ++ bs.map (·.meta) := by
  intro bs
  induction bs with
  | nil => intro i st; simp [applyBatches]
  | cons b rest ih =>
    intro i st
    show (applyBatches (i + 1) (applyBatch st i b) rest).bookMetadata = _
    rw [ih]
    simp [applyBatch, List.append_assoc]

/-- Books after the first never touch the combined metadata. -/
theorem applyBatches_combined_of_pos :
    ∀ (bs : List Batch) (i : Nat) (st : ExtractState), i ≠ 0 →
      (applyBatches i st bs).combined = st.combined := by
  intro bs
  induction bs with
  | nil => intro i st _; rfl
  | cons b rest ih =>
    intro i st hi
    show (applyBatches (i + 1) (applyBatch st i b) rest).combined = _
    rw [ih (i + 1) _ (Nat.succ_ne_zero i)]
    simp [applyBatch, hi]

/-- The combined metadata is derived from the first book only, with the
initial values as fallbacks. -/
theorem applyBatches_combined_zero (bs : List Batch) (st : ExtractState) (b : Batch) :
    (applyBatches 0 st (b :: bs)).combined =
      { title := b.titleOpt.getD st.combined.title,
        author := b.authorOpt.getD st.combined.author,
        language := b.langOpt.getD st.combined.language,
        identifier := st.combined.identifier } := by
  show (applyBatches 1 (applyBatch st 0 b) bs).combined = _
  rw [applyBatches_combined_of_pos bs 1 _ (Nat.succ_ne_zero 0)]
  rfl

/-- Indexing into the collected batches: batch `k` is the result of
`processBook` on book `k`. -/
theorem collectBatches_get :
    ∀ (zs : List Zip) (i : Nat) (bs : List Batch), collectBatches i zs = Except.ok bs →
      bs.length = zs.length ∧
      ∀ k z, zs[k]? = some z →
        ∃ b, bs[k]? = some b ∧ processBook z (i + k) = Except.ok b := by
  intro zs
  induction zs with
  | nil =>
    intro i bs h
    cases h
    exact ⟨rfl, by intro k z hz; simp at hz⟩
  | cons z rest ih =>
    intro i bs h
    cases hb : processBook z i with
    | error e =>
      rw [show collectBatches i (z :: rest)
            = (processBook z i).bind (fun b =>
                (collectBatches (i + 1) rest).bind (fun bs => Except.ok (b :: bs))) from rfl,
        hb] at h
      exact absurd h (by simp [Except.bind])
    | ok b =>
      rw [show collectBatches i (z :: rest)
            = (processBook z i).bind (fun b =>
                (collectBatches (i + 1) rest).bind (fun bs => Except.ok (b :: bs))) from rfl,
        hb] at h
      cases hc : collectBatches (i + 1) rest with
      | error e =>
        rw [hc] at h
        exact absurd h (by simp [Except.bind])
      | ok bs' =>
        rw [hc] at h
        have hbs : bs = b :: bs' := by
          simpa [Except.bind] using h.symm
        subst hbs
        obtain ⟨hlen, hget⟩ := ih (i + 1) bs' hc
        refine ⟨by simp [hlen], ?_⟩
        intro k zk hz
        cases k with
        | zero =>
          have hzz : z = zk := by simpa using hz
          subst hzz
          exact ⟨b, by simp, by simpa using hb⟩

        | succ k' =>
          obtain ⟨bk, hbk, hpk⟩ := hget k' zk (by simpa using hz)
          exact ⟨bk, by simpa using hbk, by rw [show i + (k' + 1) = i + 1 + k' from by omega]; exact hpk⟩

/-! ## Claim C8: metadata fallbacks -/

/-- C8: for every input book `k` (0-based) whose package document omits the
title, its BookMetadata title is `Book {k+1}` (1-based); an omitted creator
yields author `Unknown Author`; and the combined language is taken from
the first book only, falling back to `en` when that book omits it — all
without aborting the merge (the extraction succeeds by hypothesis, and the
TOC entries are generated from exactly these BookMetadata records). -/
theorem c8_metadata_fallbacks (zips : List Zip) (ident : String) (st : ExtractState)
    (hE : extractBooks zips ident = Except.ok st) :
    (∀ k z o m s bd, zips[k]? = some z → bookView? z = some (o, m, s, bd) →
      st.bookMetadata[k]? = some
        ({ title := o.title.getD ("Book " ++ natStr (k + 1)),
           author := o.author.getD "Unknown Author", bookIndex := k } : BookMeta)) ∧
    (∀ z0 rest o m s bd, zips = z0 :: rest → bookView? z0 = some (o, m, s, bd) →
      st.combined.language = o.language.getD "en") := by
  rw [extractBooks, extractGo_eq_collect] at hE
  cases hc : collectBatches 0 zips with
  | error e =>
    rw [hc] at hE
    exact absurd hE (by simp [Except.map])
  | ok bs =>
    rw [hc] at hE
    have hst : st = applyBatches 0 (initState ident) bs := by
      have : Except.ok (applyBatches 0 (initState ident) bs) = Except.ok st := hE
      exact (Except.ok.inj this).symm
    subst hst
    obtain ⟨hlen, hget⟩ := collectBatches_get zips 0 bs hc
    constructor
    · intro k z o m s bd hz hview
      obtain ⟨b, hb, hpb⟩ := hget k z hz
      obtain ⟨o', m', s', bd', hview', hbb⟩ := (processBook_ok_iff z (0 + k) b).mp hpb
      rw [hview] at hview'
      simp only [Option.some.injEq, Prod.mk.injEq] at hview'
      obtain ⟨h1, h2, h3, h4⟩ := hview'
      subst h1
      subst h2
      subst h3
      subst h4
      subst hbb
      rw [applyBatches_bookMetadata]
      show (([] : List BookMeta) ++ bs.map (·.meta))[k]? = _
      rw [List.nil_append, List.getElem?_map, hb]
      simp [buildBatch, Nat.zero_add]
    · intro z0 rest o m s bd hzs hview
      subst hzs
      obtain ⟨b0, hb0, hpb0⟩ := hget 0 z0 (by simp)
      obtain ⟨o', m', s', bd', hview', hbb⟩ := (processBook_ok_iff z0 (0 + 0) b0).mp hpb0
      rw [hview] at hview'
      simp only [Option.some.injEq, Prod.mk.injEq] at hview'
      obtain ⟨h1, h2, h3, h4⟩ := hview'
      subst h1
      subst h2
      subst h3
      subst h4
      subst hbb
      cases bs with
      | nil => exact absurd hb0 (by simp)
      | cons bhead btail =>
        have hbh : bhead = buildBatch z0 (0 + 0) bd o m s := by simpa using hb0
        subst hbh
        rw [applyBatches_combined_zero]
        rfl

/-- Witness for `c8_metadata_fallbacks`: `secondBook` has neither title nor
creator; `simpleBook` (the first book) carries language `fr`. -/
theorem c8_metadata_fallbacks_witness : ∃ st,
    extractBooks [simpleBook, secondBook] "uuid-5" = Except.ok st ∧
    ((∀ k z o m s bd, ([simpleBook, secondBook] : List Zip)[k]? = some z →
        bookView? z = some (o, m, s, bd) →
        st.bookMetadata[k]? = some
          ({ title := o.title.getD ("Book " ++ natStr (k + 1)),
             author := o.author.getD "Unknown Author", bookIndex := k } : BookMeta)) ∧
      (∀ z0 rest o m s bd, ([simpleBook, secondBook] : List Zip) = z0 :: rest →
        bookView? z0 = some (o, m, s, bd) →
        st.combined.language = o.language.getD "en")) :=
  ⟨_, rfl, c8_metadata_fallbacks [simpleBook, secondBook] "uuid-5" _ rfl⟩

/-! ## Claim C7: dangling spine references degrade gracefully -/

/-- Entry lookup in a `mkBook` archive. -/
theorem zipLookup_mkBook (path : String) (o : OpfData) (files : List (String × EData)) (p : String) :
    zipLookup (mkBook path o files) p =
      if p = "META-INF/container.xml" then some (EData.containerDoc (some path))
      else if p = path then some (EData.opfDoc o)
      else zipLookup files p := by
  show zipLookup (("META-INF/container.xml", EData.containerDoc (some path))
      :: (path, EData.opfDoc o) :: files) p = _
  by_cases h1 : p = "META-INF/container.xml"
  · rw [if_pos h1]
    unfold zipLookup
    rw [List.find?_cons_of_pos _ (by simpa using h1.symm)]
    rfl
  · rw [if_neg h1]
    unfold zipLookup
    rw [List.find?_cons_of_neg _ (by simpa using fun h => h1 h.symm)]
    by_cases h2 : p = path
    · rw [if_pos h2, List.find?_cons_of_pos _ (by simpa using h2.symm)]
      rfl
    · rw [if_neg h2, List.find?_cons_of_neg _ (by simpa using fun h => h2 h.symm)]

/-- Two `mkBook` archives differing only in their package-document value
agree on every entry as read back by `asString` (both package documents
read back as the same non-`raw` placeholder). -/
theorem zipLookup_mkBook_asString (path : String) (o₁ o₂ : OpfData)
    (files : List (String × EData)) (p : String) :
    (zipLookup (mkBook path o₁ files) p).map asString
      = (zipLookup (mkBook path o₂ files) p).map asString := by
  rw [zipLookup_mkBook, zipLookup_mkBook]
  by_cases h1 : p = "META-INF/container.xml"
  · simp [h1, asString]
  · by_cases h2 : p = path
    · subst h2
      simp [h1, asString]
    · simp [h1, h2, asString]

/-- Chapter resolution only reads the archive through `asString`, so
archives agreeing under `asString` resolve identically. -/
theorem resolveChapter_congr (z₁ z₂ : Zip) (i : Nat) (bd : String) (m : List ManifestItem)
    (hz : ∀ p, (zipLookup z₁ p).map asString = (zipLookup z₂ p).map asString) (q : String) :
    resolveChapter z₁ i bd m q = resolveChapter z₂ i bd m q := by
  unfold resolveChapter
  cases hml : manifestLookup m q with
  | none => rfl
  | some it =>
    by_cases hmt : it.mediaType = "application/xhtml+xml"
    · simp only [if_pos hmt]
      cases h1 : zipLookup z₁ (bd ++ it.href) with
      | none =>
        cases h2 : zipLookup z₂ (bd ++ it.href) with
        | none => rfl
        | some e =>
          have h := hz (bd ++ it.href)
          rw [h1, h2] at h
          simp at h
      | some e =>
        cases h2 : zipLookup z₂ (bd ++ it.href) with
        | none =>
          have h := hz (bd ++ it.href)
          rw [h1, h2] at h
          simp at h
        | some e' =>
          have h := hz (bd ++ it.href)
          rw [h1, h2] at h
          simp only [Option.map_some', Option.some.injEq] at h
          simp [h1, h2, h]
    · simp [hmt]

/-- Image resolution respects `asString`-agreement of archives. -/
theorem resolveImage_congr (z₁ z₂ : Zip) (i : Nat) (bd : String)
    (hz : ∀ p, (zipLookup z₁ p).map asString = (zipLookup z₂ p).map asString)
    (it : ManifestItem) :
    resolveImage z₁ i bd it = resolveImage z₂ i bd it := by
  unfold resolveImage
  by_cases hmt : strStartsWith it.mediaType "image/" = true
  · simp only [hmt, if_true]
    cases h1 : zipLookup z₁ (bd ++ it.href) with
      | none =>
        cases h2 : zipLookup z₂ (bd ++ it.href) with
        | none => rfl
        | some e =>
          have h := hz (bd ++ it.href)
          rw [h1, h2] at h
          simp at h
      | some e =>
        cases h2 : zipLookup z₂ (bd ++ it.href) with
        | none =>
          have h := hz (bd ++ it.href)
          rw [h1, h2] at h
          simp at h
        | some e' =>
          have h := hz (bd ++ it.href)
          rw [h1, h2] at h
          simp only [Option.map_some', Option.some.injEq] at h
          simp [h1, h2, h]
  · simp [hmt]

/-- Style resolution respects `asString`-agreement of archives. -/
theorem resolveStyle_congr (z₁ z₂ : Zip) (i : Nat) (bd : String)
    (hz : ∀ p, (zipLookup z₁ p).map asString = (zipLookup z₂ p).map asString)
    (it : ManifestItem) :
    resolveStyle z₁ i bd it = resolveStyle z₂ i bd it := by
  unfold resolveStyle
  by_cases hmt : it.mediaType = "text/css"
  · simp only [if_pos hmt]
    cases h1 : zipLookup z₁ (bd ++ it.href) with
      | none =>
        cases h2 : zipLookup z₂ (bd ++ it.href) with
        | none => rfl
        | some e =>
          have h := hz (bd ++ it.href)
          rw [h1, h2] at h
          simp at h
      | some e =>
        cases h2 : zipLookup z₂ (bd ++ it.href) with
        | none =>
          have h := hz (bd ++ it.href)
          rw [h1, h2] at h
          simp at h
        | some e' =>
          have h := hz (bd ++ it.href)
          rw [h1, h2] at h
          simp only [Option.map_some', Option.some.injEq] at h
          simp [h1, h2, h]
  · simp [hmt]

/-- Font resolution respects `asString`-agreement of archives. -/
theorem resolveFont_congr (z₁ z₂ : Zip) (i : Nat) (bd : String)
    (hz : ∀ p, (zipLookup z₁ p).map asString = (zipLookup z₂ p).map asString)
    (it : ManifestItem) :
    resolveFont z₁ i bd it = resolveFont z₂ i bd it := by
  unfold resolveFont
  by_cases hmt : it.mediaType ∈ fontTypes
  · simp only [if_pos hmt]
    cases h1 : zipLookup z₁ (bd ++ it.href) with
      | none =>
        cases h2 : zipLookup z₂ (bd ++ it.href) with
        | none => rfl
        | some e =>
          have h := hz (bd ++ it.href)
          rw [h1, h2] at h
          simp at h
      | some e =>
        cases h2 : zipLookup z₂ (bd ++ it.href) with
        | none =>
          have h := hz (bd ++ it.href)
          rw [h1, h2] at h
          simp at h
        | some e' =>
          have h := hz (bd ++ it.href)
          rw [h1, h2] at h
          simp only [Option.map_some', Option.some.injEq] at h
          simp [h1, h2, h]
  · simp [hmt]

/-- A `mkBook` archive's book is processed successfully, yielding the batch
of its package document. -/
theorem processBook_mkBook (path : String) (o : OpfData) (files : List (String × EData))
    (i : Nat) (m : List ManifestItem) (s : List String)
    (hpath : path ≠ "META-INF/container.xml") (hm : o.manifest = some m)
    (hs : o.spine = some s) :
    processBook (mkBook path o files) i
      = Except.ok (buildBatch (mkBook path o files) i (baseDirOf path) o m s) := by
  apply (processBook_ok_iff _ _ _).mpr
  refine ⟨o, m, s, baseDirOf path, ?_, rfl⟩
  unfold bookView?
  rw [zipLookup_mkBook, if_pos rfl]
  show (match zipLookup (mkBook path o files) path with
        | some (EData.opfDoc o) =>
          (match o.manifest, o.spine with
           | some m, some s => some (o, m, s, baseDirOf path)
           | _, _ => none)
        | _ => none) = _
  rw [zipLookup_mkBook, if_neg hpath, if_pos rfl]
  show (match o.manifest, o.spine with
        | some m, some s => some (o, m, s, baseDirOf path)
        | _, _ => none) = _
  rw [hm, hs]

/-- A dangling spine itemref resolves to no chapter. -/
theorem resolveChapter_dangling (z : Zip) (i : Nat) (bd : String) (m : List ManifestItem)
    (r : String) (hd : danglingRef z bd m r) : resolveChapter z i bd m r = none := by
  unfold resolveChapter
  rcases hd with h | ⟨it, hit, hmt, hfile⟩
  · rw [h]
  · rw [hit]
    simp [hmt, hfile]

/-- Replacing one book by another that `processBook` treats identically
leaves the whole extraction loop unchanged. -/
theorem extractGo_congr_book (z₁ z₂ : Zip)
    (hpb : ∀ j, processBook z₁ j = processBook z₂ j) :
    ∀ (pre : List Zip) (i : Nat) (st : ExtractState) (post : List Zip),
      extractGo i (pre ++ z₁ :: post) st = extractGo i (pre ++ z₂ :: post) st := by
  intro pre
  induction pre with
  | nil =>
    intro i st post
    show (processBook z₁ i).bind (fun b => extractGo (i + 1) post (applyBatch st i b))
        = (processBook z₂ i).bind (fun b => extractGo (i + 1) post (applyBatch st i b))
    rw [hpb i]
  | cons w ws ih =>
    intro i st post
    show (processBook w i).bind (fun b => extractGo (i + 1) (ws ++ z₁ :: post) (applyBatch st i b))
        = (processBook w i).bind (fun b => extractGo (i + 1) (ws ++ z₂ :: post) (applyBatch st i b))
    cases processBook w i with
    | error e => rfl
    | ok b => exact ih (i + 1) (applyBatch st i b) post

/-- C7: a spine itemref that resolves to no chapter — its idref is absent
from the manifest, or the resolved XHTML file is absent from the archive —
is silently skipped: the merge behaves bit-identically to the merge of the
same input with that itemref removed.  In particular the merge still
succeeds whenever it would succeed without the dangling entry, that spine
position is omitted from the chapter list, and the output spine counts
only resolvable chapters. -/
theorem c7_dangling_spine_refs_skipped (pre post : List Zip) (opfPath : String) (o : OpfData)
    (files : List (String × EData)) (m : List ManifestItem) (s1 s2 : List String) (r : String)
    (ident : String)
    (hpath : opfPath ≠ "META-INF/container.xml") (hm : o.manifest = some m)
    (hd : danglingRef (mkBook opfPath { o with spine := some (s1 ++ r :: s2) } files)
            (baseDirOf opfPath) m r) :
    combineEpubs (pre ++ mkBook opfPath { o with spine := some (s1 ++ r :: s2) } files :: post) ident
      = combineEpubs (pre ++ mkBook opfPath { o with spine := some (s1 ++ s2) } files :: post) ident := by
  have hz : ∀ p,
      (zipLookup (mkBook opfPath { o with spine := some (s1 ++ r :: s2) } files) p).map asString
        = (zipLookup (mkBook opfPath { o with spine := some (s1 ++ s2) } files) p).map asString :=
    zipLookup_mkBook_asString opfPath _ _ files
  have hpb : ∀ j,
      processBook (mkBook opfPath { o with spine := some (s1 ++ r :: s2) } files) j
        = processBook (mkBook opfPath { o with spine := some (s1 ++ s2) } files) j := by
    intro j
    rw [processBook_mkBook opfPath { o with spine := some (s1 ++ r :: s2) } files j m
        (s1 ++ r :: s2) hpath hm rfl,
      processBook_mkBook opfPath { o with spine := some (s1 ++ s2) } files j m
        (s1 ++ s2) hpath hm rfl]
    have hch : (s1 ++ r :: s2).filterMap
          (resolveChapter (mkBook opfPath { o with spine := some (s1 ++ r :: s2) } files) j
            (baseDirOf opfPath) m)
        = (s1 ++ s2).filterMap
          (resolveChapter (mkBook opfPath { o with spine := some (s1 ++ s2) } files) j
            (baseDirOf opfPath) m) := by
      rw [List.filterMap_append, List.filterMap_cons,
        resolveChapter_dangling _ j _ m r hd, List.filterMap_append]
      congr 1
      · exact List.filterMap_congr (fun q _ => resolveChapter_congr _ _ j _ m hz q)
      · exact List.filterMap_congr (fun q _ => resolveChapter_congr _ _ j _ m hz q)
    have him : m.filterMap
          (resolveImage (mkBook opfPath { o with spine := some (s1 ++ r :: s2) } files) j
            (baseDirOf opfPath))
        = m.filterMap
          (resolveImage (mkBook opfPath { o with spine := some (s1 ++ s2) } files) j
            (baseDirOf opfPath)) :=
      List.filterMap_congr (fun it _ => resolveImage_congr _ _ j (baseDirOf opfPath) hz it)
    have hst : m.filterMap
          (resolveStyle (mkBook opfPath { o with spine := some (s1 ++ r :: s2) } files) j
            (baseDirOf opfPath))
        = m.filterMap
          (resolveStyle (mkBook opfPath { o with spine := some (s1 ++ s2) } files) j
            (baseDirOf opfPath)) :=
      List.filterMap_congr (fun it _ => resolveStyle_congr _ _ j (baseDirOf opfPath) hz it)
    have hfo : m.filterMap
          (resolveFont (mkBook opfPath { o with spine := some (s1 ++ r :: s2) } files) j
            (baseDirOf opfPath))
        = m.filterMap
          (resolveFont (mkBook opfPath { o with spine := some (s1 ++ s2) } files) j
            (baseDirOf opfPath)) :=
      List.filterMap_congr (fun it _ => resolveFont_congr _ _ j (baseDirOf opfPath) hz it)
    simp only [buildBatch, hch, him, hst, hfo]
  show (extractBooks _ ident).map (fun st => assemble (rewritePass st))
      = (extractBooks _ ident).map (fun st => assemble (rewritePass st))
  rw [extractBooks, extractBooks, extractGo_congr_book _ _ hpb pre 0 (initState ident) post]

/-- Witness for `c7_dangling_spine_refs_skipped`: a one-book merge whose
spine lists the resolvable idref `only` and the dangling idref `ghost`. -/
theorem c7_dangling_spine_refs_skipped_witness :
    ("content.opf" : String) ≠ "META-INF/container.xml" ∧
    c7opf.manifest = some [c7item] ∧
    danglingRef (mkBook "content.opf" { c7opf with spine := some (["only"] ++ "ghost" :: []) } c7files)
      (baseDirOf "content.opf") [c7item] "ghost" ∧
    combineEpubs
        ([] ++ mkBook "content.opf" { c7opf with spine := some (["only"] ++ "ghost" :: []) } c7files :: [])
        "uuid-6"
      = combineEpubs
        ([] ++ mkBook "content.opf" { c7opf with spine := some (["only"] ++ []) } c7files :: [])
        "uuid-6" :=
  ⟨by decide, rfl, Or.inl rfl,
    c7_dangling_spine_refs_skipped [] [] "content.opf" c7opf c7files [c7item]
      ["only"] [] "ghost" "uuid-6" (by decide) rfl (Or.inl rfl)⟩

/-! ## Claim C3: spine structure -/

/-- `findSome?` skips a prefix on which the function returns `none`. -/
theorem findSome?_append_none {α β : Type} (f : α → Option β) :
    ∀ (l₁ l₂ : List α), (∀ x ∈ l₁, f x = none) →
      (l₁ ++ l₂).findSome? f = l₂.findSome? f := by
  intro l₁
  induction l₁ with
  | nil => intro l₂ _; rfl
  | cons a as ih =>
    intro l₂ h
    show (match f a with
          | some b => some b
          | none => (as ++ l₂).findSome? f) = _
    rw [h a (List.mem_cons_self a as)]
    exact ih l₂ (fun x hx => h x (List.mem_cons_of_mem a hx))

/-- A plain-text entry is never the package-document entry. -/
theorem pkgEntry?_text (pth s : String) (cp : Comp) :
    pkgEntry? { path := pth, data := OutData.text s, comp := cp } = none := by
  unfold pkgEntry?
  by_cases h : pth = "OEBPS/content.opf" <;> simp [h]


/-- Reading the package document back from an archive of the assembled
shape: three leading non-package entries, then content entries, then the
package document followed by one more entry. -/
theorem findSome?_pkg_shape (h1 h2 h3 : OutEntry) (A : List OutEntry) (p : PkgDoc)
    (last : OutEntry)
    (hh1 : pkgEntry? h1 = none) (hh2 : pkgEntry? h2 = none) (hh3 : pkgEntry? h3 = none)
    (hA : ∀ x ∈ A, pkgEntry? x = none) :
    (h1 :: h2 :: h3 :: (A ++
        [{ path := "OEBPS/content.opf", data := OutData.pkg p, comp := Comp.deflate }, last])).findSome?
      pkgEntry? = some p := by
  rw [show h1 :: h2 :: h3 :: (A ++
        [({ path := "OEBPS/content.opf", data := OutData.pkg p, comp := Comp.deflate } : OutEntry), last])
      = [h1, h2, h3] ++ (A ++
        [({ path := "OEBPS/content.opf", data := OutData.pkg p, comp := Comp.deflate } : OutEntry), last]) from rfl]
  rw [findSome?_append_none pkgEntry? [h1, h2, h3] _ (by
    intro x hx
    simp only [List.mem_cons, List.not_mem_nil, or_false] at hx
    rcases hx with rfl | rfl | rfl
    · exact hh1
    · exact hh2
    · exact hh3)]
  rw [findSome?_append_none pkgEntry? A _ hA]
  show (match pkgEntry? { path := "OEBPS/content.opf", data := OutData.pkg p, comp := Comp.deflate } with
        | some b => some b
        | none => List.findSome? pkgEntry? [last]) = some p
  rfl

/-- The spine read back from an assembled archive is the TOC itemref
followed by the accumulated chapters' ids, in order. -/
theorem spineOf_assemble (st : ExtractState) :
    spineOf (assemble st) = some ("toc-page" :: st.allChapters.map (·.id)) := by
  unfold spineOf pkgOf assemble
  simp only []
  rw [findSome?_pkg_shape _ _ _ _ _ _ (pkgEntry?_text _ _ _) (pkgEntry?_text _ _ _)
    (pkgEntry?_text _ _ _) (by
    intro x hx
    simp only [List.mem_append] at hx
    rcases hx with ((h | h) | h) | h
    · obtain ⟨c, -, rfl⟩ := List.mem_map.mp h
      exact pkgEntry?_text _ _ _
    · obtain ⟨a, -, rfl⟩ := List.mem_map.mp h
      exact pkgEntry?_text _ _ _
    · obtain ⟨c, -, rfl⟩ := List.mem_map.mp h
      exact pkgEntry?_text _ _ _
    · obtain ⟨f, -, rfl⟩ := List.mem_map.mp h
      exact pkgEntry?_text _ _ _)]
  rfl

/-- C3: for a successful merge of `N ≥ 2` books, the output spine is the
synthetic TOC itemref first, followed by each book's chapters' itemrefs in
input-book order — the per-book batches concatenated in order, each batch
holding that book's chapters in its own spine order — with no
interleaving; the spine length is `1 +` the total chapter count. -/
theorem c3_spine_structure (zips : List Zip) (ident : String) (st : ExtractState)
    (hN : 2 ≤ zips.length) (hE : extractBooks zips ident = Except.ok st) :
    ∃ bs, collectBatches 0 zips = Except.ok bs ∧
      bs.length = zips.length ∧
      (∀ k z, zips[k]? = some z →
        ∃ b, bs[k]? = some b ∧ processBook z (0 + k) = Except.ok b) ∧
      spineOf (assemble (rewritePass st))
        = some ("toc-page" :: (bs.map (fun b => b.chapters.map (·.id))).flatten) ∧
      ("toc-page" :: (bs.map (fun b => b.chapters.map (·.id))).flatten).length
        = 1 + st.allChapters.length := by
  rw [extractBooks, extractGo_eq_collect] at hE
  cases hc : collectBatches 0 zips with
  | error e =>
    rw [hc] at hE
    exact absurd hE (by simp [Except.map])
  | ok bs =>
    rw [hc] at hE
    have hst : st = applyBatches 0 (initState ident) bs := by
      have : Except.ok (applyBatches 0 (initState ident) bs) = Except.ok st := hE
      exact (Except.ok.inj this).symm
    subst hst
    obtain ⟨hlen, hget⟩ := collectBatches_get zips 0 bs hc
    have hS : (rewritePass (applyBatches 0 (initState ident) bs)).allChapters.map (·.id)
        = (bs.map (fun b => b.chapters.map (·.id))).flatten := by
      show (((applyBatches 0 (initState ident) bs).allChapters.map
          (rewriteChapter (applyBatches 0 (initState ident) bs).allImages
            (applyBatches 0 (initState ident) bs).allStyles)).map (·.id)) = _
      rw [List.map_map]
      show (applyBatches 0 (initState ident) bs).allChapters.map (·.id) = _
      rw [applyBatches_allChapters bs 0 (initState ident)]
      show ((bs.map (·.chapters)).flatten.map (·.id)) = _
      rw [List.map_flatten, List.map_map]
      rfl
    refine ⟨bs, rfl, hlen, hget, ?_, ?_⟩
    · rw [spineOf_assemble, hS]
    · rw [← hS]
      simp only [List.length_cons, List.length_map]
      show (rewritePass _).allChapters.length + 1 = _
      show ((applyBatches 0 (initState ident) bs).allChapters.map _).length + 1 = _
      rw [List.length_map]
      omega

/-- Witness for `c3_spine_structure` on a concrete two-book merge. -/
theorem c3_spine_structure_witness : ∃ st,
    extractBooks [simpleBook, secondBook] "uuid-7" = Except.ok st ∧
    2 ≤ ([simpleBook, secondBook] : List Zip).length ∧
    (∃ bs, collectBatches 0 [simpleBook, secondBook] = Except.ok bs ∧
      bs.length = ([simpleBook, secondBook] : List Zip).length ∧
      (∀ k z, ([simpleBook, secondBook] : List Zip)[k]? = some z →
        ∃ b, bs[k]? = some b ∧ processBook z (0 + k) = Except.ok b) ∧
      spineOf (assemble (rewritePass st))
        = some ("toc-page" :: (bs.map (fun b => b.chapters.map (·.id))).flatten) ∧
      ("toc-page" :: (bs.map (fun b => b.chapters.map (·.id))).flatten).length
        = 1 + st.allChapters.length) :=
  ⟨_, rfl, by decide, c3_spine_structure [simpleBook, secondBook] "uuid-7" _ (by decide) rfl⟩

/-! ## Decimal renderings and the shape of generated ids and hrefs -/

/-- Digit characters are never underscores. -/
theorem digitChar_ne_underscore (d : Nat) : digitChar d ≠ '_' := by
  unfold digitChar
  split <;> decide

/-- Every character of a decimal rendering is a digit character. -/
theorem natDecimalAux_chars :
    ∀ (f n : Nat) (c : Char), c ∈ natDecimalAux f n → ∃ d, c = digitChar d := by
  intro f
  induction f with
  | zero => intro n c hc; cases hc
  | succ f' ih =>
    intro n c hc
    unfold natDecimalAux at hc
    by_cases hn : n < 10
    · rw [if_pos hn] at hc
      exact ⟨n, by simpa using hc⟩
    · rw [if_neg hn] at hc
      rcases List.mem_append.mp hc with h | h
      · exact ih (n / 10) c h
      · exact ⟨n % 10, by simpa using h⟩

/-- Decimal renderings never contain underscores. -/
theorem underscore_not_mem_natDecimal (n : Nat) : ('_' : Char) ∉ natDecimal n := by
  intro h
  obtain ⟨d, hd⟩ := natDecimalAux_chars (n + 1) n '_' h
  exact digitChar_ne_underscore d hd.symm

/-- The numeric value of a digit character below ten. -/
theorem digitChar_val (d : Nat) (hd : d < 10) : (digitChar d).toNat - 48 = d := by
  interval_cases d <;> decide

/-- Folding the base-10 accumulator over a decimal rendering recovers the
rendered number. -/
theorem foldl_natDecimalAux :
    ∀ (n f a : Nat), n < f →
      List.foldl (fun acc c => acc * 10 + (c.toNat - 48)) a (natDecimalAux f n)
        = a * 10 ^ (natDecimalAux f n).length + n := by
  intro n
  induction n using Nat.strong_induction_on with
  | _ n ih =>
    intro f a hf
    cases f with
    | zero => omega
    | succ f' =>
      unfold natDecimalAux
      by_cases hn : n < 10
      · rw [if_pos hn]
        simp only [List.foldl_cons, List.foldl_nil, List.length_cons, List.length_nil]
        rw [digitChar_val n hn]
        ring
      · rw [if_neg hn]
        have hlt : n / 10 < n := Nat.div_lt_self (by omega) (by omega)
        have hfuel : n / 10 < f' := by omega
        rw [List.foldl_append, ih (n / 10) hlt f' a hfuel]
        simp only [List.foldl_cons, List.foldl_nil, List.length_append, List.length_cons,
          List.length_nil]
        rw [digitChar_val (n % 10) (Nat.mod_lt n (by omega))]
        have hdm : n / 10 * 10 + n % 10 = n := by omega
        have hpow : (10 : Nat) ^ ((natDecimalAux f' (n / 10)).length + (0 + 1))
            = 10 ^ (natDecimalAux f' (n / 10)).length * 10 := by
          rw [Nat.zero_add, pow_succ]
        rw [hpow]
        calc (a * 10 ^ (natDecimalAux f' (n / 10)).length + n / 10) * 10 + n % 10
            = a * (10 ^ (natDecimalAux f' (n / 10)).length * 10) + (n / 10 * 10 + n % 10) := by
              ring
          _ = a * (10 ^ (natDecimalAux f' (n / 10)).length * 10) + n := by rw [hdm]

/-- Decimal rendering is injective. -/
theorem natDecimal_inj {m n : Nat} (h : natDecimal m = natDecimal n) : m = n := by
  have hm := foldl_natDecimalAux m (m + 1) 0 (by omega)
  have hn := foldl_natDecimalAux n (n + 1) 0 (by omega)
  rw [show natDecimalAux (m + 1) m = natDecimal m from rfl] at hm
  rw [show natDecimalAux (n + 1) n = natDecimal n from rfl] at hn
  rw [h] at hm
  rw [hm] at hn
  omega

/-- Splitting at a separator occurring in neither left part is unique. -/
theorem append_sep_inj :
    ∀ {a c : List Char} {b d : List Char}, ('_' : Char) ∉ a → ('_' : Char) ∉ c →
      a ++ '_' :: b = c ++ '_' :: d → a = c ∧ b = d := by
  intro a
  induction a with
  | nil =>
    intro c b d _ hc h
    cases c with
    | nil => simpa using h
    | cons x xs =>
      simp only [List.nil_append, List.cons_append] at h
      injection h with h1 h2
      exact absurd (by rw [h1]; exact List.mem_cons_self x xs) hc
  | cons y ys ih =>
    intro c b d ha hc h
    cases c with
    | nil =>
      simp only [List.cons_append, List.nil_append] at h
      injection h with h1 h2
      exact absurd (by rw [← h1]; exact List.mem_cons_self y ys) ha
    | cons x xs =>
      simp only [List.cons_append] at h
      injection h with h1 h2
      obtain ⟨hac, hbd⟩ := ih (fun hm => ha (List.mem_cons_of_mem y hm))
        (fun hm => hc (List.mem_cons_of_mem x hm)) h2
      exact ⟨by rw [h1, hac], hbd⟩

/-- `String.data` distributes over append. -/
theorem sdata_append (a b : String) : (a ++ b).data = a.data ++ b.data := rfl

/-- Generic injectivity of `lit ++ decimal ++ "_" ++ rest` strings. -/
theorem tagged_inj {p : List Char} {i j : Nat} {x y : List Char}
    (h : p ++ (natDecimal i ++ '_' :: x) = p ++ (natDecimal j ++ '_' :: y)) :
    i = j ∧ x = y := by
  have h2 := List.append_cancel_left h
  obtain ⟨hd, hxy⟩ := append_sep_inj (underscore_not_mem_natDecimal i)
    (underscore_not_mem_natDecimal j) h2
  exact ⟨natDecimal_inj hd, hxy⟩

/-- Data shape of generated chapter ids. -/
theorem chapterIdStr_data (i : Nat) (r : String) :
    (chapterIdStr i r).data = "chapter_".data ++ (natDecimal i ++ '_' :: r.data) := by
  show ((("chapter_" ++ natStr i) ++ "_") ++ r).data = _
  rw [sdata_append, sdata_append, sdata_append, List.append_assoc, List.append_assoc]
  rfl

/-- Data shape of generated chapter hrefs. -/
theorem chapterHrefStr_data (i : Nat) (r : String) :
    (chapterHrefStr i r).data
      = "OEBPS/Text/".data ++ ("chapter_".data ++ (natDecimal i ++ '_' :: (r.data ++ ".xhtml".data))) := by
  show ((("OEBPS/Text/" ++ chapterIdStr i r) ++ ".xhtml")).data = _
  rw [sdata_append, sdata_append, chapterIdStr_data]
  simp [List.append_assoc]

/-- Data shape of generated image ids. -/
theorem imgIdStr_data (i : Nat) (t : String) :
    (imgIdStr i t).data = "img_".data ++ (natDecimal i ++ '_' :: t.data) := by
  show ((("img_" ++ natStr i) ++ "_") ++ t).data = _
  rw [sdata_append, sdata_append, sdata_append, List.append_assoc, List.append_assoc]
  rfl

/-- Data shape of generated image hrefs. -/
theorem imgHrefStr_data (i : Nat) (t n : String) :
    (imgHrefStr i t n).data
      = "OEBPS/Images/".data ++ ("img_".data ++ (natDecimal i ++ '_' :: (t.data ++ '_' :: n.data))) := by
  show ((("OEBPS/Images/" ++ imgIdStr i t) ++ "_") ++ n).data = _
  rw [sdata_append, sdata_append, sdata_append, imgIdStr_data]
  simp [List.append_assoc]

/-- Data shape of generated style ids. -/
theorem styleIdStr_data (i : Nat) (t : String) :
    (styleIdStr i t).data = "style_".data ++ (natDecimal i ++ '_' :: t.data) := by
  show ((("style_" ++ natStr i) ++ "_") ++ t).data = _
  rw [sdata_append, sdata_append, sdata_append, List.append_assoc, List.append_assoc]
  rfl

/-- Data shape of generated style hrefs. -/
theorem styleHrefStr_data (i : Nat) (t n : String) :
    (styleHrefStr i t n).data
      = "OEBPS/Styles/".data ++ ("style_".data ++ (natDecimal i ++ '_' :: (t.data ++ '_' :: n.data))) := by
  show ((("OEBPS/Styles/" ++ styleIdStr i t) ++ "_") ++ n).data = _
  rw [sdata_append, sdata_append, sdata_append, styleIdStr_data]
  simp [List.append_assoc]

/-- Data shape of generated font ids. -/
theorem fontIdStr_data (i : Nat) (t : String) :
    (fontIdStr i t).data = "font_".data ++ (natDecimal i ++ '_' :: t.data) := by
  show ((("font_" ++ natStr i) ++ "_") ++ t).data = _
  rw [sdata_append, sdata_append, sdata_append, List.append_assoc, List.append_assoc]
  rfl

/-- Data shape of generated font hrefs. -/
theorem fontHrefStr_data (i : Nat) (t n : String) :
    (fontHrefStr i t n).data
      = "OEBPS/Fonts/".data ++ ("font_".data ++ (natDecimal i ++ '_' :: (t.data ++ '_' :: n.data))) := by
  show ((("OEBPS/Fonts/" ++ fontIdStr i t) ++ "_") ++ n).data = _
  rw [sdata_append, sdata_append, sdata_append, fontIdStr_data]
  simp [List.append_assoc]

/-- Two strings with different leading characters differ. -/
theorem string_ne_of_head {a b : String} {c d : Char}
    (ha : a.data.head? = some c) (hb : b.data.head? = some d) (hcd : c ≠ d) : a ≠ b := by
  intro h
  rw [h] at ha
  rw [ha] at hb
  exact hcd (Option.some.inj hb)

/-- A resolved chapter carries the generated id/href for its idref. -/
theorem resolveChapter_shape (z : Zip) (i : Nat) (bd : String) (m : List ManifestItem)
    (q : String) (c : Chapter) (h : resolveChapter z i bd m q = some c) :
    c.id = chapterIdStr i q ∧ c.href = chapterHrefStr i q := by
  unfold resolveChapter at h
  split at h
  · exact absurd h (by simp)
  · split at h
    · split at h
      · exact absurd h (by simp)
      · obtain rfl := Option.some.inj h
        exact ⟨rfl, rfl⟩
    · exact absurd h (by simp)

/-- A resolved image carries the generated id/href for its manifest item. -/
theorem resolveImage_shape (z : Zip) (i : Nat) (bd : String) (it : ManifestItem)
    (a : Asset) (h : resolveImage z i bd it = some a) :
    a.id = imgIdStr i it.id ∧ a.href = imgHrefStr i it.id (basenameStr it.href) := by
  unfold resolveImage at h
  split at h
  · split at h
    · exact absurd h (by simp)
    · obtain rfl := Option.some.inj h
      exact ⟨rfl, rfl⟩
  · exact absurd h (by simp)

/-- A resolved style carries the generated id/href for its manifest item. -/
theorem resolveStyle_shape (z : Zip) (i : Nat) (bd : String) (it : ManifestItem)
    (s : Style) (h : resolveStyle z i bd it = some s) :
    s.id = styleIdStr i it.id ∧ s.href = styleHrefStr i it.id (basenameStr it.href) := by
  unfold resolveStyle at h
  split at h
  · split at h
    · exact absurd h (by simp)
    · obtain rfl := Option.some.inj h
      exact ⟨rfl, rfl⟩
  · exact absurd h (by simp)

/-- A resolved font carries the generated id/href for its manifest item. -/
theorem resolveFont_shape (z : Zip) (i : Nat) (bd : String) (it : ManifestItem)
    (a : Asset) (h : resolveFont z i bd it = some a) :
    a.id = fontIdStr i it.id ∧ a.href = fontHrefStr i it.id (basenameStr it.href) := by
  unfold resolveFont at h
  split at h
  · split at h
    · exact absurd h (by simp)
    · obtain rfl := Option.some.inj h
      exact ⟨rfl, rfl⟩
  · exact absurd h (by simp)

/-- Every record of a successfully processed book's batch is shaped by that
book's index. -/
theorem processBook_shapes (z : Zip) (i : Nat) (b : Batch) (h : processBook z i = Except.ok b) :
    (∀ c ∈ b.chapters, chapterShaped i c) ∧ (∀ a ∈ b.images, imageShaped i a) ∧
    (∀ s ∈ b.styles, styleShaped i s) ∧ (∀ a ∈ b.fonts, fontShaped i a) := by
  obtain ⟨o, m, s, bd, -, rfl⟩ := (processBook_ok_iff z i b).mp h
  refine ⟨?_, ?_, ?_, ?_⟩
  · intro c hc
    obtain ⟨q, -, hq⟩ := List.mem_filterMap.mp hc
    obtain ⟨h1, h2⟩ := resolveChapter_shape z i bd m q c hq
    exact ⟨q, h1, h2⟩
  · intro a ha
    obtain ⟨it, -, hit⟩ := List.mem_filterMap.mp ha
    obtain ⟨h1, h2⟩ := resolveImage_shape z i bd it a hit
    exact ⟨it.id, basenameStr it.href, h1, h2⟩
  · intro x hx
    obtain ⟨it, -, hit⟩ := List.mem_filterMap.mp hx
    obtain ⟨h1, h2⟩ := resolveStyle_shape z i bd it x hit
    exact ⟨it.id, basenameStr it.href, h1, h2⟩
  · intro a ha
    obtain ⟨it, -, hit⟩ := List.mem_filterMap.mp ha
    obtain ⟨h1, h2⟩ := resolveFont_shape z i bd it a hit
    exact ⟨it.id, basenameStr it.href, h1, h2⟩

/-- The extraction loop preserves and extends the shape invariant. -/
theorem extractGo_shapedBelow :
    ∀ (zs : List Zip) (i : Nat) (st st' : ExtractState),
      extractGo i zs st = Except.ok st' → ShapedBelow i st →
      ShapedBelow (i + zs.length) st' := by
  intro zs
  induction zs with
  | nil =>
    intro i st st' h hs
    obtain rfl := Except.ok.inj h
    simpa using hs
  | cons z rest ih =>
    intro i st st' h hs
    rw [show extractGo i (z :: rest) st
        = (processBook z i).bind (fun b => extractGo (i + 1) rest (applyBatch st i b)) from rfl] at h
    cases hb : processBook z i with
    | error e =>
      rw [hb] at h
      exact absurd h (by simp [Except.bind])
    | ok b =>
      rw [hb] at h
      have h' : extractGo (i + 1) rest (applyBatch st i b) = Except.ok st' := h
      obtain ⟨hbc, hbi, hbs, hbf⟩ := processBook_shapes z i b hb
      obtain ⟨hc, him, hstl, hfo⟩ := hs
      have happ : ShapedBelow (i + 1) (applyBatch st i b) := by
        refine ⟨?_, ?_, ?_, ?_⟩
        · intro c hcmem
          rcases List.mem_append.mp hcmem with hmem | hmem
          · obtain ⟨j, hj, hsh⟩ := hc c hmem
            exact ⟨j, by omega, hsh⟩
          · exact ⟨i, by omega, hbc c hmem⟩
        · intro a hamem
          rcases List.mem_append.mp hamem with hmem | hmem
          · obtain ⟨j, hj, hsh⟩ := him a hmem
            exact ⟨j, by omega, hsh⟩
          · exact ⟨i, by omega, hbi a hmem⟩
        · intro x hxmem
          rcases List.mem_append.mp hxmem with hmem | hmem
          · obtain ⟨j, hj, hsh⟩ := hstl x hmem
            exact ⟨j, by omega, hsh⟩
          · exact ⟨i, by omega, hbs x hmem⟩
        · intro a hamem
          rcases List.mem_append.mp hamem with hmem | hmem
          · obtain ⟨j, hj, hsh⟩ := hfo a hmem
            exact ⟨j, by omega, hsh⟩
          · exact ⟨i, by omega, hbf a hmem⟩
      have harith : i + 1 + rest.length = i + (z :: rest).length := by
        simp only [List.length_cons]
        omega
      rw [← harith]
      exact ih (i + 1) (applyBatch st i b) st' h' happ

/-- A successful extraction leaves every record shaped by its book index. -/
theorem extractBooks_shaped (zips : List Zip) (ident : String) (st : ExtractState)
    (h : extractBooks zips ident = Except.ok st) : ShapedBelow zips.length st := by
  have h0 : ShapedBelow 0 (initState ident) := by
    refine ⟨?_, ?_, ?_, ?_⟩ <;> intro x hx <;> cases hx
  have := extractGo_shapedBelow zips 0 (initState ident) st h h0
  simpa using this

/-! ## Claim C9: the mimetype entry -/

/-- Chapter hrefs start with `O`. -/
theorem chapterHrefStr_head (i : Nat) (r : String) :
    (chapterHrefStr i r).data.head? = some 'O' := by
  rw [chapterHrefStr_data]
  rfl

/-- Image hrefs start with `O`. -/
theorem imgHrefStr_head (i : Nat) (t n : String) :
    (imgHrefStr i t n).data.head? = some 'O' := by
  rw [imgHrefStr_data]
  rfl

/-- Style hrefs start with `O`. -/
theorem styleHrefStr_head (i : Nat) (t n : String) :
    (styleHrefStr i t n).data.head? = some 'O' := by
  rw [styleHrefStr_data]
  rfl

/-- Font hrefs start with `O`. -/
theorem fontHrefStr_head (i : Nat) (t n : String) :
    (fontHrefStr i t n).data.head? = some 'O' := by
  rw [fontHrefStr_data]
  rfl

/-- C9: in every archive produced by a successful merge, the `mimetype`
entry holds exactly the bytes `application/epub+zip` and is stored without
compression, and every entry other than `mimetype` is written with deflate
compression. -/
theorem c9_mimetype_stored_uncompressed (zips : List Zip) (ident : String)
    (out : List OutEntry) (hC : combineEpubs zips ident = Except.ok out) :
    (∃ e ∈ out, e.path = "mimetype"
      ∧ e.data = OutData.text "application/epub+zip" ∧ e.comp = Comp.store) ∧
    (∀ e ∈ out, e.path = "mimetype" →
      e.data = OutData.text "application/epub+zip" ∧ e.comp = Comp.store) ∧
    (∀ e ∈ out, e.path ≠ "mimetype" → e.comp = Comp.deflate) := by
  unfold combineEpubs at hC
  cases hE : extractBooks zips ident with
  | error e =>
    rw [hE] at hC
    exact absurd hC (by simp [Except.map])
  | ok st =>
    rw [hE] at hC
    have hout : out = assemble (rewritePass st) := by
      have : Except.ok (assemble (rewritePass st)) = Except.ok out := hC
      exact (Except.ok.inj this).symm
    subst hout
    obtain ⟨hcsh, hish, hssh, hfsh⟩ := extractBooks_shaped zips ident st hE
    have hmem : ∀ e ∈ assemble (rewritePass st),
        e = { path := "mimetype", data := OutData.text "application/epub+zip",
              comp := Comp.store } ∨
        e.comp = Comp.deflate ∧ e.path ≠ "mimetype" := by
      intro e he
      simp only [assemble, List.mem_cons, List.mem_append, List.mem_map,
        List.mem_singleton, List.not_mem_nil, or_false] at he
      rcases he with rfl | rfl | rfl | ⟨⟨⟨⟨c, hc, rfl⟩ | ⟨a, ha, rfl⟩⟩ | ⟨x, hx, rfl⟩⟩ | ⟨a, ha, rfl⟩⟩ | rfl | rfl
      · exact Or.inl rfl
      · exact Or.inr ⟨rfl, by decide⟩
      · refine Or.inr ⟨rfl, ?_⟩
        show ("OEBPS/Text/toc.xhtml" : String) ≠ "mimetype"
        decide
      · refine Or.inr ⟨rfl, ?_⟩
        obtain ⟨c₀, hc₀, rfl⟩ := List.mem_map.mp hc
        obtain ⟨i, -, r, -, hhref⟩ := hcsh c₀ hc₀
        show (rewriteChapter st.allImages st.allStyles c₀).href ≠ "mimetype"
        show c₀.href ≠ "mimetype"
        rw [hhref]
        exact string_ne_of_head (chapterHrefStr_head i r) rfl (by decide)
      · refine Or.inr ⟨rfl, ?_⟩
        obtain ⟨i, -, t, n, -, hhref⟩ := hish a ha
        show a.href ≠ "mimetype"
        rw [hhref]
        exact string_ne_of_head (imgHrefStr_head i t n) rfl (by decide)
      · refine Or.inr ⟨rfl, ?_⟩
        obtain ⟨i, -, t, n, -, hhref⟩ := hssh x hx
        show x.href ≠ "mimetype"
        rw [hhref]
        exact string_ne_of_head (styleHrefStr_head i t n) rfl (by decide)
      · refine Or.inr ⟨rfl, ?_⟩
        obtain ⟨i, -, t, n, -, hhref⟩ := hfsh a ha
        show a.href ≠ "mimetype"
        rw [hhref]
        exact string_ne_of_head (fontHrefStr_head i t n) rfl (by decide)
      · refine Or.inr ⟨rfl, ?_⟩
        show ("OEBPS/content.opf" : String) ≠ "mimetype"
        decide
      · refine Or.inr ⟨rfl, ?_⟩
        show ("OEBPS/toc.ncx" : String) ≠ "mimetype"
        decide
    refine ⟨⟨_, List.mem_cons_self _ _, rfl, rfl, rfl⟩, ?_, ?_⟩
    · intro e he hp
      rcases hmem e he with rfl | ⟨-, h2⟩
      · exact ⟨rfl, rfl⟩
      · exact absurd hp h2
    · intro e he hne
      rcases hmem e he with rfl | ⟨h1, -⟩
      · exact absurd rfl hne
      · exact h1

/-- Witness for `c9_mimetype_stored_uncompressed` on a concrete merge. -/
theorem c9_mimetype_stored_uncompressed_witness : ∃ out,
    combineEpubs [simpleBook, secondBook] "uuid-8" = Except.ok out ∧
    ((∃ e ∈ out, e.path = "mimetype"
        ∧ e.data = OutData.text "application/epub+zip" ∧ e.comp = Comp.store) ∧
      (∀ e ∈ out, e.path = "mimetype" →
        e.data = OutData.text "application/epub+zip" ∧ e.comp = Comp.store) ∧
      (∀ e ∈ out, e.path ≠ "mimetype" → e.comp = Comp.deflate)) :=
  ⟨_, rfl, c9_mimetype_stored_uncompressed [simpleBook, secondBook] "uuid-8" _ rfl⟩

/-! ## Claim C1: global uniqueness of ids and hrefs -/

/-- Injectivity of generated chapter ids. -/
theorem chapterIdStr_inj {i j : Nat} {r s : String}
    (h : chapterIdStr i r = chapterIdStr j s) : i = j ∧ r = s := by
  have hd := congrArg String.data h
  rw [chapterIdStr_data, chapterIdStr_data] at hd
  obtain ⟨hij, hrs⟩ := tagged_inj hd
  exact ⟨hij, String.ext hrs⟩

/-- Injectivity of generated chapter hrefs. -/
theorem chapterHrefStr_inj {i j : Nat} {r s : String}
    (h : chapterHrefStr i r = chapterHrefStr j s) : i = j ∧ r = s := by
  have hd := congrArg String.data h
  rw [chapterHrefStr_data, chapterHrefStr_data] at hd
  have hd2 := List.append_cancel_left hd
  obtain ⟨hij, hrs⟩ := tagged_inj hd2
  exact ⟨hij, String.ext (List.append_cancel_right hrs)⟩

/-- Injectivity of generated image ids. -/
theorem imgIdStr_inj {i j : Nat} {t u : String}
    (h : imgIdStr i t = imgIdStr j u) : i = j ∧ t = u := by
  have hd := congrArg String.data h
  rw [imgIdStr_data, imgIdStr_data] at hd
  obtain ⟨hij, htu⟩ := tagged_inj hd
  exact ⟨hij, String.ext htu⟩

/-- Injectivity of generated style ids. -/
theorem styleIdStr_inj {i j : Nat} {t u : String}
    (h : styleIdStr i t = styleIdStr j u) : i = j ∧ t = u := by
  have hd := congrArg String.data h
  rw [styleIdStr_data, styleIdStr_data] at hd
  obtain ⟨hij, htu⟩ := tagged_inj hd
  exact ⟨hij, String.ext htu⟩

/-- Injectivity of generated font ids. -/
theorem fontIdStr_inj {i j : Nat} {t u : String}
    (h : fontIdStr i t = fontIdStr j u) : i = j ∧ t = u := by
  have hd := congrArg String.data h
  rw [fontIdStr_data, fontIdStr_data] at hd
  obtain ⟨hij, htu⟩ := tagged_inj hd
  exact ⟨hij, String.ext htu⟩

/-- Image hrefs determine the book index (no hygiene needed: the decimal
part is underscore-free). -/
theorem imgHrefStr_book_inj {i j : Nat} {t₁ n₁ t₂ n₂ : String}
    (h : imgHrefStr i t₁ n₁ = imgHrefStr j t₂ n₂) : i = j := by
  have hd := congrArg String.data h
  rw [imgHrefStr_data, imgHrefStr_data] at hd
  exact (tagged_inj (List.append_cancel_left hd)).1

/-- Style hrefs determine the book index. -/
theorem styleHrefStr_book_inj {i j : Nat} {t₁ n₁ t₂ n₂ : String}
    (h : styleHrefStr i t₁ n₁ = styleHrefStr j t₂ n₂) : i = j := by
  have hd := congrArg String.data h
  rw [styleHrefStr_data, styleHrefStr_data] at hd
  exact (tagged_inj (List.append_cancel_left hd)).1

/-- Font hrefs determine the book index. -/
theorem fontHrefStr_book_inj {i j : Nat} {t₁ n₁ t₂ n₂ : String}
    (h : fontHrefStr i t₁ n₁ = fontHrefStr j t₂ n₂) : i = j := by
  have hd := congrArg String.data h
  rw [fontHrefStr_data, fontHrefStr_data] at hd
  exact (tagged_inj (List.append_cancel_left hd)).1

/-- Full injectivity of image hrefs for underscore-free item ids. -/
theorem imgHrefStr_inj {i j : Nat} {t₁ n₁ t₂ n₂ : String}
    (h1 : ('_' : Char) ∉ t₁.data) (h2 : ('_' : Char) ∉ t₂.data)
    (h : imgHrefStr i t₁ n₁ = imgHrefStr j t₂ n₂) : i = j ∧ t₁ = t₂ ∧ n₁ = n₂ := by
  have hd := congrArg String.data h
  rw [imgHrefStr_data, imgHrefStr_data] at hd
  obtain ⟨hij, hrest⟩ := tagged_inj (List.append_cancel_left hd)
  obtain ⟨ht, hn⟩ := append_sep_inj h1 h2 hrest
  exact ⟨hij, String.ext ht, String.ext hn⟩

/-- Full injectivity of style hrefs for underscore-free item ids. -/
theorem styleHrefStr_inj {i j : Nat} {t₁ n₁ t₂ n₂ : String}
    (h1 : ('_' : Char) ∉ t₁.data) (h2 : ('_' : Char) ∉ t₂.data)
    (h : styleHrefStr i t₁ n₁ = styleHrefStr j t₂ n₂) : i = j ∧ t₁ = t₂ ∧ n₁ = n₂ := by
  have hd := congrArg String.data h
  rw [styleHrefStr_data, styleHrefStr_data] at hd
  obtain ⟨hij, hrest⟩ := tagged_inj (List.append_cancel_left hd)
  obtain ⟨ht, hn⟩ := append_sep_inj h1 h2 hrest
  exact ⟨hij, String.ext ht, String.ext hn⟩

/-- Full injectivity of font hrefs for underscore-free item ids. -/
theorem fontHrefStr_inj {i j : Nat} {t₁ n₁ t₂ n₂ : String}
    (h1 : ('_' : Char) ∉ t₁.data) (h2 : ('_' : Char) ∉ t₂.data)
    (h : fontHrefStr i t₁ n₁ = fontHrefStr j t₂ n₂) : i = j ∧ t₁ = t₂ ∧ n₁ = n₂ := by
  have hd := congrArg String.data h
  rw [fontHrefStr_data, fontHrefStr_data] at hd
  obtain ⟨hij, hrest⟩ := tagged_inj (List.append_cancel_left hd)
  obtain ⟨ht, hn⟩ := append_sep_inj h1 h2 hrest
  exact ⟨hij, String.ext ht, String.ext hn⟩

/-- Leading characters of the four id families. -/
theorem chapterIdStr_head (i : Nat) (r : String) :
    (chapterIdStr i r).data.head? = some 'c' := by
  rw [chapterIdStr_data]
  rfl

/-- Image ids start with `i`. -/
theorem imgIdStr_head (i : Nat) (t : String) : (imgIdStr i t).data.head? = some 'i' := by
  rw [imgIdStr_data]
  rfl

/-- Style ids start with `s`. -/
theorem styleIdStr_head (i : Nat) (t : String) : (styleIdStr i t).data.head? = some 's' := by
  rw [styleIdStr_data]
  rfl

/-- Font ids start with `f`. -/
theorem fontIdStr_head (i : Nat) (t : String) : (fontIdStr i t).data.head? = some 'f' := by
  rw [fontIdStr_data]
  rfl

/-- The seventh character distinguishes the four href families. -/
theorem chapterHrefStr_six (i : Nat) (r : String) :
    (chapterHrefStr i r).data[6]? = some 'T' := by
  rw [chapterHrefStr_data]
  rfl

/-- Image hrefs have `I` at index six. -/
theorem imgHrefStr_six (i : Nat) (t n : String) : (imgHrefStr i t n).data[6]? = some 'I' := by
  rw [imgHrefStr_data]
  rfl

/-- Style hrefs have `S` at index six. -/
theorem styleHrefStr_six (i : Nat) (t n : String) :
    (styleHrefStr i t n).data[6]? = some 'S' := by
  rw [styleHrefStr_data]
  rfl

/-- Font hrefs have `F` at index six. -/
theorem fontHrefStr_six (i : Nat) (t n : String) : (fontHrefStr i t n).data[6]? = some 'F' := by
  rw [fontHrefStr_data]
  rfl

/-- Two strings differing at index six differ. -/
theorem string_ne_of_six {a b : String} {c d : Char}
    (ha : a.data[6]? = some c) (hb : b.data[6]? = some d) (hcd : c ≠ d) : a ≠ b := by
  intro h
  rw [h] at ha
  rw [ha] at hb
  exact hcd (Option.some.inj hb)

/-- Mapping over a `filterMap` produces distinct values when the sources
carry distinct tags and equal images force equal tags. -/
theorem nodup_map_filterMap {α β γ δ : Type} (f : α → Option β) (g : β → γ) (tagOf : α → δ) :
    ∀ (l : List α), (l.map tagOf).Nodup →
      (∀ a ∈ l, ∀ b₁, f a = some b₁ → ∀ a' ∈ l, ∀ b₂, f a' = some b₂ →
        g b₁ = g b₂ → tagOf a = tagOf a') →
      ((l.filterMap f).map g).Nodup := by
  intro l
  induction l with
  | nil => intro _ _; simp
  | cons a rest ih =>
    intro hl htag
    rw [List.map_cons, List.nodup_cons] at hl
    obtain ⟨hhead, htail⟩ := hl
    rw [List.filterMap_cons]
    cases hfa : f a with
    | none =>
      exact ih htail (fun x hx b₁ hb₁ x' hx' b₂ hb₂ hg =>
        htag x (List.mem_cons_of_mem a hx) b₁ hb₁ x' (List.mem_cons_of_mem a hx') b₂ hb₂ hg)
    | some b =>
      rw [List.map_cons, List.nodup_cons]
      refine ⟨?_, ih htail (fun x hx b₁ hb₁ x' hx' b₂ hb₂ hg =>
        htag x (List.mem_cons_of_mem a hx) b₁ hb₁ x' (List.mem_cons_of_mem a hx') b₂ hb₂ hg)⟩
      intro hmem
      obtain ⟨b', hb', hgb⟩ := List.mem_map.mp hmem
      obtain ⟨a', ha', hfa'⟩ := List.mem_filterMap.mp hb'
      have htags := htag a (List.mem_cons_self a rest) b hfa
        a' (List.mem_cons_of_mem a ha') b' hfa' hgb.symm
      exact hhead (htags ▸ List.mem_map_of_mem tagOf ha')

/-- All eight pools of a successfully processed hygienic book are
duplicate-free. -/
theorem batch_pools_nodup (z : Zip) (i : Nat) (b : Batch)
    (h : processBook z i = Except.ok b)
    (hgood : ∀ o m s bd, bookView? z = some (o, m, s, bd) →
      (m.map (·.id)).Nodup ∧ (∀ it ∈ m, ('_' : Char) ∉ it.id.data) ∧ s.Nodup) :
    (b.chapters.map (·.id)).Nodup ∧ (b.chapters.map (·.href)).Nodup ∧
    (b.images.map (·.id)).Nodup ∧ (b.images.map (·.href)).Nodup ∧
    (b.styles.map (·.id)).Nodup ∧ (b.styles.map (·.href)).Nodup ∧
    (b.fonts.map (·.id)).Nodup ∧ (b.fonts.map (·.href)).Nodup := by
  obtain ⟨o, m, s, bd, hview, rfl⟩ := (processBook_ok_iff z i b).mp h
  obtain ⟨hmid, hmus, hsnd⟩ := hgood o m s bd hview
  have hsnd' : (s.map (fun q => q)).Nodup := by simpa using hsnd
  refine ⟨?_, ?_, ?_, ?_, ?_, ?_, ?_, ?_⟩
  · exact nodup_map_filterMap _ _ _ s hsnd' (fun q _ c₁ hc₁ q' _ c₂ hc₂ hg => by
      rw [(resolveChapter_shape z i bd m q c₁ hc₁).1,
        (resolveChapter_shape z i bd m q' c₂ hc₂).1] at hg
      exact (chapterIdStr_inj hg).2)
  · exact nodup_map_filterMap _ _ _ s hsnd' (fun q _ c₁ hc₁ q' _ c₂ hc₂ hg => by
      rw [(resolveChapter_shape z i bd m q c₁ hc₁).2,
        (resolveChapter_shape z i bd m q' c₂ hc₂).2] at hg
      exact (chapterHrefStr_inj hg).2)
  · exact nodup_map_filterMap _ _ _ m hmid (fun it _ a₁ ha₁ it' _ a₂ ha₂ hg => by
      rw [(resolveImage_shape z i bd it a₁ ha₁).1,
        (resolveImage_shape z i bd it' a₂ ha₂).1] at hg
      exact (imgIdStr_inj hg).2)
  · exact nodup_map_filterMap _ _ _ m hmid (fun it hit a₁ ha₁ it' hit' a₂ ha₂ hg => by
      rw [(resolveImage_shape z i bd it a₁ ha₁).2,
        (resolveImage_shape z i bd it' a₂ ha₂).2] at hg
      exact (imgHrefStr_inj (hmus it hit) (hmus it' hit') hg).2.1)
  · exact nodup_map_filterMap _ _ _ m hmid (fun it _ x₁ hx₁ it' _ x₂ hx₂ hg => by
      rw [(resolveStyle_shape z i bd it x₁ hx₁).1,
        (resolveStyle_shape z i bd it' x₂ hx₂).1] at hg
      exact (styleIdStr_inj hg).2)
  · exact nodup_map_filterMap _ _ _ m hmid (fun it hit x₁ hx₁ it' hit' x₂ hx₂ hg => by
      rw [(resolveStyle_shape z i bd it x₁ hx₁).2,
        (resolveStyle_shape z i bd it' x₂ hx₂).2] at hg
      exact (styleHrefStr_inj (hmus it hit) (hmus it' hit') hg).2.1)
  · exact nodup_map_filterMap _ _ _ m hmid (fun it _ a₁ ha₁ it' _ a₂ ha₂ hg => by
      rw [(resolveFont_shape z i bd it a₁ ha₁).1,
        (resolveFont_shape z i bd it' a₂ ha₂).1] at hg
      exact (fontIdStr_inj hg).2)
  · exact nodup_map_filterMap _ _ _ m hmid (fun it hit a₁ ha₁ it' hit' a₂ ha₂ hg => by
      rw [(resolveFont_shape z i bd it a₁ ha₁).2,
        (resolveFont_shape z i bd it' a₂ ha₂).2] at hg
      exact (fontHrefStr_inj (hmus it hit) (hmus it' hit') hg).2.1)

/-- The executable hygiene check implies the propositional one. -/
theorem goodBooks_of_B (zips : List Zip) (h : goodBooksB zips = true) : GoodBooks zips := by
  intro z hz o m s bd hv
  have hz2 := List.all_eq_true.mp h z hz
  rw [hv] at hz2
  simp only [Bool.and_eq_true, decide_eq_true_eq] at hz2
  exact ⟨hz2.1.1, hz2.1.2, hz2.2⟩

/-- Folding in one book's batch raises the shape bound by one. -/
theorem applyBatch_shapedBelow (st : ExtractState) (i : Nat) (b : Batch) (z : Zip)
    (hb : processBook z i = Except.ok b) (hs : ShapedBelow i st) :
    ShapedBelow (i + 1) (applyBatch st i b) := by
  obtain ⟨hbc, hbi, hbs, hbf⟩ := processBook_shapes z i b hb
  obtain ⟨hc, him, hstl, hfo⟩ := hs
  refine ⟨?_, ?_, ?_, ?_⟩
  · intro c hcmem
    rcases List.mem_append.mp hcmem with hmem | hmem
    · obtain ⟨j, hj, hsh⟩ := hc c hmem
      exact ⟨j, by omega, hsh⟩
    · exact ⟨i, by omega, hbc c hmem⟩
  · intro a hamem
    rcases List.mem_append.mp hamem with hmem | hmem
    · obtain ⟨j, hj, hsh⟩ := him a hmem
      exact ⟨j, by omega, hsh⟩
    · exact ⟨i, by omega, hbi a hmem⟩
  · intro x hxmem
    rcases List.mem_append.mp hxmem with hmem | hmem
    · obtain ⟨j, hj, hsh⟩ := hstl x hmem
      exact ⟨j, by omega, hsh⟩
    · exact ⟨i, by omega, hbs x hmem⟩
  · intro a hamem
    rcases List.mem_append.mp hamem with hmem | hmem
    · obtain ⟨j, hj, hsh⟩ := hfo a hmem
      exact ⟨j, by omega, hsh⟩
    · exact ⟨i, by omega, hbf a hmem⟩

/-- The extraction loop, run on hygienic books, preserves per-pool
uniqueness of ids and hrefs. -/
theorem extractGo_nodup :
    ∀ (zs : List Zip) (i : Nat) (st st' : ExtractState),
      extractGo i zs st = Except.ok st' →
      ShapedBelow i st → PoolsNodup st → GoodBooks zs →
      PoolsNodup st' := by
  intro zs
  induction zs with
  | nil =>
    intro i st st' h _ hp _
    obtain rfl := Except.ok.inj h
    exact hp
  | cons z rest ih =>
    intro i st st' h hs hp hg
    rw [show extractGo i (z :: rest) st
        = (processBook z i).bind (fun b => extractGo (i + 1) rest (applyBatch st i b)) from rfl] at h
    cases hb : processBook z i with
    | error e =>
      rw [hb] at h
      exact absurd h (by simp [Except.bind])
    | ok b =>
      rw [hb] at h
      have h' : extractGo (i + 1) rest (applyBatch st i b) = Except.ok st' := h
      have happ := applyBatch_shapedBelow st i b z hb hs
      obtain ⟨bc1, bc2, bi1, bi2, bs1, bs2, bf1, bf2⟩ :=
        batch_pools_nodup z i b hb (hg z (List.mem_cons_self z rest))
      obtain ⟨hbc, hbi, hbst, hbf⟩ := processBook_shapes z i b hb
      obtain ⟨oc, oi, ost, ofn⟩ := hs
      obtain ⟨hc1, hc2, hi1, hi2, hs1, hs2, hf1, hf2⟩ := hp
      have hp' : PoolsNodup (applyBatch st i b) := by
        refine ⟨?_, ?_, ?_, ?_, ?_, ?_, ?_, ?_⟩
        · show ((st.allChapters ++ b.chapters).map (·.id)).Nodup
          rw [List.map_append, List.nodup_append]
          refine ⟨hc1, bc1, ?_⟩
          intro x hx hx'
          obtain ⟨c, hcm, rfl⟩ := List.mem_map.mp hx
          obtain ⟨c', hcm', he⟩ := List.mem_map.mp hx'
          obtain ⟨j, hj, r, hid, -⟩ := oc c hcm
          obtain ⟨r', hid', -⟩ := hbc c' hcm'
          rw [hid', hid] at he
          exact absurd (chapterIdStr_inj he).1 (by omega)
        · show ((st.allChapters ++ b.chapters).map (·.href)).Nodup
          rw [List.map_append, List.nodup_append]
          refine ⟨hc2, bc2, ?_⟩
          intro x hx hx'
          obtain ⟨c, hcm, rfl⟩ := List.mem_map.mp hx
          obtain ⟨c', hcm', he⟩ := List.mem_map.mp hx'
          obtain ⟨j, hj, r, -, hhr⟩ := oc c hcm
          obtain ⟨r', -, hhr'⟩ := hbc c' hcm'
          rw [hhr', hhr] at he
          exact absurd (chapterHrefStr_inj he).1 (by omega)
        · show ((st.allImages ++ b.images).map (·.id)).Nodup
          rw [List.map_append, List.nodup_append]
          refine ⟨hi1, bi1, ?_⟩
          intro x hx hx'
          obtain ⟨a, ham, rfl⟩ := List.mem_map.mp hx
          obtain ⟨a', ham', he⟩ := List.mem_map.mp hx'
          obtain ⟨j, hj, t, n, hid, -⟩ := oi a ham
          obtain ⟨t', n', hid', -⟩ := hbi a' ham'
          rw [hid', hid] at he
          exact absurd (imgIdStr_inj he).1 (by omega)
        · show ((st.allImages ++ b.images).map (·.href)).Nodup
          rw [List.map_append, List.nodup_append]
          refine ⟨hi2, bi2, ?_⟩
          intro x hx hx'
          obtain ⟨a, ham, rfl⟩ := List.mem_map.mp hx
          obtain ⟨a', ham', he⟩ := List.mem_map.mp hx'
          obtain ⟨j, hj, t, n, -, hhr⟩ := oi a ham
          obtain ⟨t', n', -, hhr'⟩ := hbi a' ham'
          rw [hhr', hhr] at he
          exact absurd (imgHrefStr_book_inj he) (by omega)
        · show ((st.allStyles ++ b.styles).map (·.id)).Nodup
          rw [List.map_append, List.nodup_append]
          refine ⟨hs1, bs1, ?_⟩
          intro x hx hx'
          obtain ⟨a, ham, rfl⟩ := List.mem_map.mp hx
          obtain ⟨a', ham', he⟩ := List.mem_map.mp hx'
          obtain ⟨j, hj, t, n, hid, -⟩ := ost a ham
          obtain ⟨t', n', hid', -⟩ := hbst a' ham'
          rw [hid', hid] at he
          exact absurd (styleIdStr_inj he).1 (by omega)
        · show ((st.allStyles ++ b.styles).map (·.href)).Nodup
          rw [List.map_append, List.nodup_append]
          refine ⟨hs2, bs2, ?_⟩
          intro x hx hx'
          obtain ⟨a, ham, rfl⟩ := List.mem_map.mp hx
          obtain ⟨a', ham', he⟩ := List.mem_map.mp hx'
          obtain ⟨j, hj, t, n, -, hhr⟩ := ost a ham
          obtain ⟨t', n', -, hhr'⟩ := hbst a' ham'
          rw [hhr', hhr] at he
          exact absurd (styleHrefStr_book_inj he) (by omega)
        · show ((st.allFonts ++ b.fonts).map (·.id)).Nodup
          rw [List.map_append, List.nodup_append]
          refine ⟨hf1, bf1, ?_⟩
          intro x hx hx'
          obtain ⟨a, ham, rfl⟩ := List.mem_map.mp hx
          obtain ⟨a', ham', he⟩ := List.mem_map.mp hx'
          obtain ⟨j, hj, t, n, hid, -⟩ := ofn a ham
          obtain ⟨t', n', hid', -⟩ := hbf a' ham'
          rw [hid', hid] at he
          exact absurd (fontIdStr_inj he).1 (by omega)
        · show ((st.allFonts ++ b.fonts).map (·.href)).Nodup
          rw [List.map_append, List.nodup_append]
          refine ⟨hf2, bf2, ?_⟩
          intro x hx hx'
          obtain ⟨a, ham, rfl⟩ := List.mem_map.mp hx
          obtain ⟨a', ham', he⟩ := List.mem_map.mp hx'
          obtain ⟨j, hj, t, n, -, hhr⟩ := ofn a ham
          obtain ⟨t', n', -, hhr'⟩ := hbf a' ham'
          rw [hhr', hhr] at he
          exact absurd (fontHrefStr_book_inj he) (by omega)
      exact ih (i + 1) (applyBatch st i b) st' h' happ hp'
        (fun z' hz' => hg z' (List.mem_cons_of_mem z hz'))

/-- A successful extraction over hygienic books has duplicate-free id and
href pools. -/
theorem extractBooks_nodup (zips : List Zip) (ident : String) (st : ExtractState)
    (h : extractBooks zips ident = Except.ok st) (hg : GoodBooks zips) :
    PoolsNodup st := by
  have h0s : ShapedBelow 0 (initState ident) := by
    refine ⟨?_, ?_, ?_, ?_⟩ <;> intro x hx <;> cases hx
  have h0p : PoolsNodup (initState ident) := by
    refine ⟨?_, ?_, ?_, ?_, ?_, ?_, ?_, ?_⟩ <;> simp [initState]
  exact extractGo_nodup zips 0 (initState ident) st h h0s h0p hg

/-- C1: when extraction succeeds on hygienic input books (per-book manifest
ids pairwise distinct and underscore-free, per-book spine idrefs pairwise
distinct), no two produced records — chapters, images, styles, fonts,
across all books — share an `id`, and no two share an `href`.  (The
unamended, unconditional claim fails: see the counterexample, where two
manifest ids collide after underscore gluing.) -/
theorem c1_unique_ids_hrefs (zips : List Zip) (ident : String) (st : ExtractState)
    (hE : extractBooks zips ident = Except.ok st) (hg : GoodBooks zips) :
    (allIds st).Nodup ∧ (allHrefs st).Nodup := by
  obtain ⟨hc1, hc2, hi1, hi2, hs1, hs2, hf1, hf2⟩ := extractBooks_nodup zips ident st hE hg
  obtain ⟨shc, shi, shs, shf⟩ := extractBooks_shaped zips ident st hE
  have hdisjH : ∀ (l₁ l₂ : List String) (c d : Char), c ≠ d →
      (∀ x ∈ l₁, x.data.head? = some c) → (∀ x ∈ l₂, x.data.head? = some d) →
      l₁.Disjoint l₂ := by
    intro l₁ l₂ c d hcd h₁ h₂ x hx hx'
    exact string_ne_of_head (h₁ x hx) (h₂ x hx') hcd rfl
  have hdisjS : ∀ (l₁ l₂ : List String) (c d : Char), c ≠ d →
      (∀ x ∈ l₁, x.data[6]? = some c) → (∀ x ∈ l₂, x.data[6]? = some d) →
      l₁.Disjoint l₂ := by
    intro l₁ l₂ c d hcd h₁ h₂ x hx hx'
    exact string_ne_of_six (h₁ x hx) (h₂ x hx') hcd rfl
  have hCid : ∀ x ∈ st.allChapters.map (·.id), x.data.head? = some 'c' := by
    intro x hx
    obtain ⟨c, hcm, rfl⟩ := List.mem_map.mp hx
    obtain ⟨j, -, r, hid, -⟩ := shc c hcm
    rw [hid]
    exact chapterIdStr_head j r
  have hIid : ∀ x ∈ st.allImages.map (·.id), x.data.head? = some 'i' := by
    intro x hx
    obtain ⟨a, ham, rfl⟩ := List.mem_map.mp hx
    obtain ⟨j, -, t, n, hid, -⟩ := shi a ham
    rw [hid]
    exact imgIdStr_head j t
  have hSid : ∀ x ∈ st.allStyles.map (·.id), x.data.head? = some 's' := by
    intro x hx
    obtain ⟨a, ham, rfl⟩ := List.mem_map.mp hx
    obtain ⟨j, -, t, n, hid, -⟩ := shs a ham
    rw [hid]
    exact styleIdStr_head j t
  have hFid : ∀ x ∈ st.allFonts.map (·.id), x.data.head? = some 'f' := by
    intro x hx
    obtain ⟨a, ham, rfl⟩ := List.mem_map.mp hx
    obtain ⟨j, -, t, n, hid, -⟩ := shf a ham
    rw [hid]
    exact fontIdStr_head j t
  have hChr : ∀ x ∈ st.allChapters.map (·.href), x.data[6]? = some 'T' := by
    intro x hx
    obtain ⟨c, hcm, rfl⟩ := List.mem_map.mp hx
    obtain ⟨j, -, r, -, hhr⟩ := shc c hcm
    rw [hhr]
    exact chapterHrefStr_six j r
  have hIhr : ∀ x ∈ st.allImages.map (·.href), x.data[6]? = some 'I' := by
    intro x hx
    obtain ⟨a, ham, rfl⟩ := List.mem_map.mp hx
    obtain ⟨j, -, t, n, -, hhr⟩ := shi a ham
    rw [hhr]
    exact imgHrefStr_six j t n
  have hShr : ∀ x ∈ st.allStyles.map (·.href), x.data[6]? = some 'S' := by
    intro x hx
    obtain ⟨a, ham, rfl⟩ := List.mem_map.mp hx
    obtain ⟨j, -, t, n, -, hhr⟩ := shs a ham
    rw [hhr]
    exact styleHrefStr_six j t n
  have hFhr : ∀ x ∈ st.allFonts.map (·.href), x.data[6]? = some 'F' := by
    intro x hx
    obtain ⟨a, ham, rfl⟩ := List.mem_map.mp hx
    obtain ⟨j, -, t, n, -, hhr⟩ := shf a ham
    rw [hhr]
    exact fontHrefStr_six j t n
  constructor
  · show ((st.allChapters.map (·.id) ++ st.allImages.map (·.id)
      ++ st.allStyles.map (·.id)) ++ st.allFonts.map (·.id)).Nodup
    rw [List.nodup_append, List.nodup_append, List.nodup_append,
      List.disjoint_append_left, List.disjoint_append_left, List.disjoint_append_left]
    exact ⟨⟨⟨hc1, hi1, hdisjH _ _ 'c' 'i' (by decide) hCid hIid⟩,
        hs1, hdisjH _ _ 'c' 's' (by decide) hCid hSid,
        hdisjH _ _ 'i' 's' (by decide) hIid hSid⟩,
      hf1, ⟨hdisjH _ _ 'c' 'f' (by decide) hCid hFid,
        hdisjH _ _ 'i' 'f' (by decide) hIid hFid⟩,
      hdisjH _ _ 's' 'f' (by decide) hSid hFid⟩
  · show ((st.allChapters.map (·.href) ++ st.allImages.map (·.href)
      ++ st.allStyles.map (·.href)) ++ st.allFonts.map (·.href)).Nodup
    rw [List.nodup_append, List.nodup_append, List.nodup_append,
      List.disjoint_append_left, List.disjoint_append_left, List.disjoint_append_left]
    exact ⟨⟨⟨hc2, hi2, hdisjS _ _ 'T' 'I' (by decide) hChr hIhr⟩,
        hs2, hdisjS _ _ 'T' 'S' (by decide) hChr hShr,
        hdisjS _ _ 'I' 'S' (by decide) hIhr hShr⟩,
      hf2, ⟨hdisjS _ _ 'T' 'F' (by decide) hChr hFhr,
        hdisjS _ _ 'I' 'F' (by decide) hIhr hFhr⟩,
      hdisjS _ _ 'S' 'F' (by decide) hShr hFhr⟩

/-- The unconditional uniqueness claim fails: a single legal book whose
manifest ids `a` and `a_b` are pairwise distinct yields two image records
with the same produced href, while the whole merge still succeeds. -/
theorem c1_counterexample :
    (combineEpubs [collidingHrefBook] "u1").isOk = true ∧
    ∃ st, extractBooks [collidingHrefBook] "u1" = Except.ok st ∧
      st.allImages.map (·.href)
        = ["OEBPS/Images/img_0_a_b_c.jpg", "OEBPS/Images/img_0_a_b_c.jpg"] ∧
      ¬ (allHrefs st).Nodup :=
  ⟨rfl, _, rfl, rfl, by decide⟩

/-- Concrete instantiation of the uniqueness theorem on a two-book input. -/
theorem c1_unique_ids_hrefs_witness : ∃ st,
    extractBooks [simpleBook, secondBook] "uuid-1" = Except.ok st ∧
    (allIds st).Nodup ∧ (allHrefs st).Nodup :=
  ⟨_, rfl, c1_unique_ids_hrefs [simpleBook, secondBook] "uuid-1" _ rfl
    (goodBooks_of_B [simpleBook, secondBook] (by decide))⟩
